import Mathlib

/-!
# backman: configuration resolver, duration codec and service registry

A shallow embedding of `config/config.go` (package `config`) and of
`service/service.go` (package `service`) of the backman repository: the
configuration record types, the `TimeoutDuration` JSON codec, the one-shot
resolver `Get`, and the registry of bound services (`parseServices`,
`GetServices`, `GetService`), followed by theorems about them.

Conventions of the embedding

* Go `string` is `String`, `[]string` is `List String`, Go `int` and
  `time.Duration` (an `int64` count of nanoseconds) are `Int`.
* `map[string]ServiceConfig` is `ServiceMap`: the nil map, or a finite map
  with unique keys, `AList (fun _ : String => ServiceConfig)`.  Reading a
  missing key, or any key of the nil map, gives the zero value; writing to the
  nil map panics.  The order in which `range` visits a map is not specified in
  Go; every theorem below holds for every order of the entries.
* The JSON documents (file and `BACKMAN_CONFIG`) enter the model already
  decoded into `Config` values; a document that fails to decode ends the
  process (`log.Fatalln`) and has no resolved configuration.
* A run that panics has no result: the functions that can panic return an
  `Option`, with `none` for the panic.
-/

namespace Backman

/-! ## Data model (config.go, lines 19-69) -/

/-- Go `time.Duration`: a signed 64-bit count of nanoseconds. -/
abbrev Duration := Int

/-- Go `time.Nanosecond`. -/
def Nanosecond : Nat := 1
/-- Go `time.Microsecond`. -/
def Microsecond : Nat := 1000 * Nanosecond
/-- Go `time.Millisecond`. -/
def Millisecond : Nat := 1000 * Microsecond
/-- Go `time.Second`. -/
def Second : Nat := 1000 * Millisecond
/-- Go `time.Minute`. -/
def Minute : Nat := 60 * Second
/-- Go `time.Hour`. -/
def Hour : Nat := 60 * Minute

/-- Type `TimeoutDuration` (config.go:67): a struct embedding `time.Duration`. -/
structure TimeoutDuration where
  Duration : Duration
  deriving DecidableEq

/-- Type `S3Config` (config.go:33). -/
structure S3Config where
  DisableSSL : Bool
  SkipSSLVerification : Bool
  ServiceLabel : String
  ServiceName : String
  BucketName : String
  EncryptionKey : String
  deriving DecidableEq

/-- The anonymous struct of field `Retention` of `ServiceConfig` (config.go:45). -/
structure RetentionConfig where
  Days : Int
  Files : Int
  deriving DecidableEq

/-- Type `ServiceConfig` (config.go:42). -/
structure ServiceConfig where
  Schedule : String
  Timeout : TimeoutDuration
  Retention : RetentionConfig
  DirectS3 : Bool
  DisableColumnStatistics : Bool
  LogStdErr : Bool
  ForceImport : Bool
  LocalBackupPath : String
  BackupOptions : List String
  RestoreOptions : List String
  deriving DecidableEq

/-- Type `TeamsNotificationConfig` (config.go:62). -/
structure TeamsNotificationConfig where
  Webhook : String
  Events : List String
  deriving DecidableEq

/-- Type `NotificationConfig` (config.go:58). -/
structure NotificationConfig where
  Teams : TeamsNotificationConfig
  deriving DecidableEq

/-- Go `map[string]ServiceConfig`: the nil map, or a map that holds entries
under unique keys.  The map `config.Services` is made at config.go:100 and is
nil only after a `config.json` that sets `services` to JSON `null`; the map
`envConfig.Services` is nil when `BACKMAN_CONFIG` has no `services`. -/
inductive ServiceMap where
  | nil
  | made (m : AList (fun _ : String => ServiceConfig))
  deriving DecidableEq

/-- The entries a map holds; the nil map holds none. -/
def ServiceMap.alist : ServiceMap → AList (fun _ : String => ServiceConfig)
  | ServiceMap.nil => ∅
  | ServiceMap.made m => m

/-- The entry stored under `key`, if any. -/
def ServiceMap.lookup (m : ServiceMap) (key : String) : Option ServiceConfig :=
  m.alist.lookup key

/-- The keys of a map. -/
def ServiceMap.keys (m : ServiceMap) : List String := m.alist.keys

/-- Type `Config` (config.go:19). -/
structure Config where
  LogLevel : String
  LoggingTimestamp : Bool
  Username : String
  Password : String
  DisableWeb : Bool
  DisableMetrics : Bool
  UnprotectedMetrics : Bool
  Notifications : NotificationConfig
  S3 : S3Config
  Services : ServiceMap
  Foreground : Bool
  deriving DecidableEq

/-- The zero value of `ServiceConfig`, which a Go map read gives for a missing key. -/
def ServiceConfig.zero : ServiceConfig :=
  { Schedule := "", Timeout := ⟨0⟩, Retention := ⟨0, 0⟩, DirectS3 := false,
    DisableColumnStatistics := false, LogStdErr := false, ForceImport := false,
    LocalBackupPath := "", BackupOptions := [], RestoreOptions := [] }

/-- The value `Config{Services: make(map[string]ServiceConfig)}` of config.go:99. -/
def Config.initial : Config :=
  { LogLevel := "", LoggingTimestamp := false, Username := "", Password := "",
    DisableWeb := false, DisableMetrics := false, UnprotectedMetrics := false,
    Notifications := ⟨⟨"", []⟩⟩,
    S3 := { DisableSSL := false, SkipSSLVerification := false, ServiceLabel := "",
            ServiceName := "", BucketName := "", EncryptionKey := "" },
    Services := ServiceMap.made ∅, Foreground := false }

/-- The zero value `Config{}` of config.go:119, into which `BACKMAN_CONFIG` is
decoded: its services map is nil. -/
def Config.zero : Config := { Config.initial with Services := ServiceMap.nil }

/-- Go map read `m[key]`: the stored entry, or the zero value when the key is
absent or the map is nil. -/
def ServiceMap.get (m : ServiceMap) (key : String) : ServiceConfig :=
  (m.lookup key).getD ServiceConfig.zero

/-- The test `td.Seconds() > 1` of config.go:176.  `Seconds` returns the
float64 `float64(d / Second) + float64(d % Second) / 1e9`; for an `int64` count
`d` both summands are exact or correctly rounded values with the first an
integer, so the sum exceeds `1` exactly when `d` exceeds one second. -/
def TimeoutDuration.secondsGtOne (td : TimeoutDuration) : Bool :=
  decide ((Second : Int) < td.Duration)

/-! ## The merge of `BACKMAN_CONFIG` over the file (config.go, lines 125-207) -/

/-- The body of the loop of config.go:171-207 up to the map write: the entry
`mergedServiceConfig` read from the base map, overwritten field by field from
the override entry `serviceConfig`. -/
def mergeServiceConfig (mergedServiceConfig serviceConfig : ServiceConfig) : ServiceConfig :=
  let m := mergedServiceConfig
  let m := if serviceConfig.Schedule.length > 0 then
    { m with Schedule := serviceConfig.Schedule } else m
  let m := if serviceConfig.Timeout.secondsGtOne then
    { m with Timeout := serviceConfig.Timeout } else m
  let m := if serviceConfig.Retention.Days > 0 then
    { m with Retention := { m.Retention with Days := serviceConfig.Retention.Days } } else m
  let m := if serviceConfig.Retention.Files > 0 then
    { m with Retention := { m.Retention with Files := serviceConfig.Retention.Files } } else m
  let m := if serviceConfig.DirectS3 then
    { m with DirectS3 := serviceConfig.DirectS3 } else m
  let m := if serviceConfig.DisableColumnStatistics then
    { m with DisableColumnStatistics := serviceConfig.DisableColumnStatistics } else m
  let m := if serviceConfig.LogStdErr then
    { m with LogStdErr := serviceConfig.LogStdErr } else m
  let m := if serviceConfig.ForceImport then
    { m with ForceImport := serviceConfig.ForceImport } else m
  let m := if serviceConfig.LocalBackupPath.length > 0 then
    { m with LocalBackupPath := serviceConfig.LocalBackupPath } else m
  let m := if serviceConfig.BackupOptions.length > 0 then
    { m with BackupOptions := serviceConfig.BackupOptions } else m
  let m := if serviceConfig.RestoreOptions.length > 0 then
    { m with RestoreOptions := serviceConfig.RestoreOptions } else m
  m

/-- One iteration of the loop of config.go:171-207 on the map `services`: the
read of config.go:172, the merge of the fields, and the write
`config.Services[serviceName] = mergedServiceConfig` of config.go:206, which
panics on the nil map (`none`). -/
def mergeServiceStep (services : ServiceMap) (entry : Sigma (fun _ : String => ServiceConfig)) :
    Option ServiceMap :=
  let mergedServiceConfig := mergeServiceConfig (services.get entry.1) entry.2
  match services with
  | ServiceMap.nil => none
  | ServiceMap.made m => some (ServiceMap.made (m.insert entry.1 mergedServiceConfig))

/-- The loop `for serviceName, serviceConfig := range envConfig.Services`
(config.go:171-207), run over the entries of the override map; `none` when a
pass panics. -/
def mergeServices (services envServices : ServiceMap) : Option ServiceMap :=
  envServices.alist.entries.foldlM mergeServiceStep services

/-- The statements of config.go:126-170, which merge the top-level settings. -/
def mergeTopLevel (config envConfig : Config) : Config :=
  let c := config
  let c := if envConfig.LogLevel.length > 0 then
    { c with LogLevel := envConfig.LogLevel } else c
  let c := if envConfig.LoggingTimestamp then
    { c with LoggingTimestamp := envConfig.LoggingTimestamp } else c
  let c := if envConfig.Username.length > 0 then
    { c with Username := envConfig.Username } else c
  let c := if envConfig.Password.length > 0 then
    { c with Password := envConfig.Password } else c
  let c := if envConfig.DisableWeb then
    { c with DisableWeb := envConfig.DisableWeb } else c
  let c := if envConfig.DisableMetrics then
    { c with DisableMetrics := envConfig.DisableMetrics } else c
  let c := if envConfig.UnprotectedMetrics then
    { c with UnprotectedMetrics := envConfig.UnprotectedMetrics } else c
  let c := if envConfig.Notifications.Teams.Webhook.length > 0 then
    { c with Notifications :=
        { Teams := { c.Notifications.Teams with
            Webhook := envConfig.Notifications.Teams.Webhook } } } else c
  let c := if envConfig.Notifications.Teams.Events.length > 0 then
    { c with Notifications :=
        { Teams := { c.Notifications.Teams with
            Events := envConfig.Notifications.Teams.Events } } } else c
  let c := if envConfig.S3.DisableSSL then
    { c with S3 := { c.S3 with DisableSSL := envConfig.S3.DisableSSL } } else c
  let c := if envConfig.S3.SkipSSLVerification then
    { c with S3 := { c.S3 with SkipSSLVerification := envConfig.S3.SkipSSLVerification } } else c
  let c := if envConfig.S3.ServiceLabel.length > 0 then
    { c with S3 := { c.S3 with ServiceLabel := envConfig.S3.ServiceLabel } } else c
  let c := if envConfig.S3.ServiceName.length > 0 then
    { c with S3 := { c.S3 with ServiceName := envConfig.S3.ServiceName } } else c
  let c := if envConfig.S3.BucketName.length > 0 then
    { c with S3 := { c.S3 with BucketName := envConfig.S3.BucketName } } else c
  let c := if envConfig.S3.EncryptionKey.length > 0 then
    { c with S3 := { c.S3 with EncryptionKey := envConfig.S3.EncryptionKey } } else c
  c

/-- The block "merge config values" of config.go:125-207: the top-level
settings, then the loop over the override's services; `none` when the loop
panics. -/
def mergeConfig (config envConfig : Config) : Option Config :=
  let c := mergeTopLevel config envConfig
  match mergeServices c.Services envConfig.Services with
  | none => none
  | some services => some { c with Services := services }


/-! ## float64 values

The code touches `float64` in three places: a JSON number decoded into an
`interface{}` is a `float64`; `time.Duration(value)` converts it to `int64`;
and `time.ParseDuration` scales the fractional digits of a component in
`float64`.  A finite `float64` is the dyadic rational `± mant * 2 ^ exp`, and
arithmetic on it is the exact result rounded to the nearest such value with a
53-bit significand, ties to even (IEEE 754 binary64).  The exponent range
(overflow to infinity, subnormals) is not modelled. -/

/-- A finite `float64` value `± mant * 2 ^ exp`. -/
structure Float64 where
  neg : Bool
  mant : Nat
  exp : Int
  deriving DecidableEq

/-- Number of binary digits of `n`; `fuel` bounds the recursion (`n` suffices). -/
def bitLenAux : Nat → Nat → Nat
  | 0, _ => 0
  | fuel + 1, n => if n = 0 then 0 else 1 + bitLenAux fuel (n / 2)

/-- Number of binary digits of `n` (`0` for `n = 0`). -/
def bitLen (n : Nat) : Nat := bitLenAux n n

/-- The integer nearest to `n / d`, ties to the even one. -/
def roundNearestEven (n d : Nat) : Nat :=
  let q := n / d
  let r := n % d
  if 2 * r < d then q
  else if d < 2 * r then q + 1
  else if q % 2 = 0 then q else q + 1

/-- Numerator and denominator of `n / (d * 2 ^ e)`. -/
def scaleRatio (n d : Nat) (e : Int) : Nat × Nat :=
  if 0 ≤ e then (n, d * 2 ^ e.toNat) else (n * 2 ^ (-e).toNat, d)

/-- The `float64` nearest to the non-negative rational `n / d` (`d > 0`):
the exponent `e` is chosen so that `n / (d * 2 ^ e)` lies in `[2^52, 2^53)`
and the significand is that quotient rounded to nearest, ties to even. -/
def Float64.ofRatio (n d : Nat) : Float64 :=
  if n = 0 ∨ d = 0 then ⟨false, 0, 0⟩
  else
    let e0 : Int := (bitLen n : Int) - (bitLen d : Int) - 53
    let s0 := scaleRatio n d e0
    let e : Int := if s0.1 / s0.2 < 2 ^ 53 then e0 else e0 + 1
    let s := scaleRatio n d e
    ⟨false, roundNearestEven s.1 s.2, e⟩

/-- Numerator and denominator of the magnitude of a `float64`. -/
def Float64.ratio (f : Float64) : Nat × Nat :=
  if 0 ≤ f.exp then (f.mant * 2 ^ f.exp.toNat, 1) else (f.mant, 2 ^ (-f.exp).toNat)

/-- Conversion `float64(n)` of an unsigned integer. -/
def Float64.ofNat (n : Nat) : Float64 := Float64.ofRatio n 1

/-- The product `a * b` of two non-negative `float64` values. -/
def Float64.mul (a b : Float64) : Float64 :=
  Float64.ofRatio (a.ratio.1 * b.ratio.1) (a.ratio.2 * b.ratio.2)

/-- The quotient `a / b` of two non-negative `float64` values, `b` not zero. -/
def Float64.div (a b : Float64) : Float64 :=
  Float64.ofRatio (a.ratio.1 * b.ratio.2) (a.ratio.2 * b.ratio.1)

/-- Conversion `uint64(f)` of a non-negative `float64`: the integer part.
(A value of `2^64` or more has no defined conversion; `ParseDuration` never
produces one.) -/
def Float64.toUint64 (f : Float64) : Nat := f.ratio.1 / f.ratio.2

/-- Conversion `int64(f)`, as in `time.Duration(value)`: the integer part,
toward zero.  For a value outside the `int64` range Go leaves the result to
the implementation; the value given here is the one amd64 produces. -/
def Float64.toInt64 (f : Float64) : Int :=
  let mag : Int := ((f.ratio.1 / f.ratio.2 : Nat) : Int)
  let v : Int := if f.neg then -mag else mag
  if -(2 : Int) ^ 63 ≤ v ∧ v < (2 : Int) ^ 63 then v else -(2 : Int) ^ 63

/-- The `float64` that `json.Unmarshal` stores for a JSON number written as
the integer `n`: `strconv.ParseFloat` gives the `float64` nearest to `n`, ties
to even. -/
def Float64.ofInt (n : Int) : Float64 :=
  { Float64.ofNat n.natAbs with neg := decide (n < 0) }

/-- The `float64` value `f` is exactly the integer `n`. -/
@[reducible] def Float64.represents (f : Float64) (n : Int) : Prop :=
  f.ratio.1 = n.natAbs * f.ratio.2 ∧ (f.neg = true → n ≤ 0) ∧ (f.neg = false → 0 ≤ n)

/-! ## Go standard library: `time.Duration.String` and `time.ParseDuration`

Transcribed from package `time` of the Go standard library (`time.go`,
`format.go`), in the form in which the parser accumulates in `uint64`.  Strings are handled as lists of characters; the library scans
bytes, and the only bytes it tests for (`+ - . 0-9`) are ASCII, so on valid
UTF-8 the two scans agree. -/

/-- The character `byte(digit) + '0'` for a decimal digit. -/
def digitChar (digit : Nat) : Char := Char.ofNat (digit + 48)

/-- The loop of `fmtFrac`: `i` counts the remaining digits of the precision. -/
def fmtFracLoop : Nat → List Char → Nat → Bool → List Char × Nat × Bool
  | 0, buf, v, print => (buf, v, print)
  | i + 1, buf, v, print =>
    let digit := v % 10
    let print := print || digit != 0
    let buf := if print then digitChar digit :: buf else buf
    fmtFracLoop i buf (v / 10) print

/-- Library `fmtFrac`: writes the fraction of `v / 10 ^ prec` in front of
`buf`, without trailing zeros and without the point when the fraction is
zero; returns the new text and `v / 10 ^ prec`. -/
def fmtFrac (buf : List Char) (v prec : Nat) : List Char × Nat :=
  let r := fmtFracLoop prec buf v false
  (if r.2.2 then '.' :: r.1 else r.1, r.2.1)

/-- The loop `for v > 0` of `fmtInt`; `fuel` bounds the recursion (`v` suffices). -/
def fmtIntLoop : Nat → List Char → Nat → List Char
  | 0, buf, _ => buf
  | fuel + 1, buf, v => if v > 0 then fmtIntLoop fuel (digitChar (v % 10) :: buf) (v / 10) else buf

/-- Library `fmtInt`: writes `v` in decimal in front of `buf`. -/
def fmtInt (buf : List Char) (v : Nat) : List Char :=
  if v = 0 then '0' :: buf else fmtIntLoop v buf v

/-- Library `Duration.format`: the text of a duration, built from its end. -/
def Duration.format (d : Duration) : List Char :=
  let u : Nat := (d % 2 ^ 64).toNat
  let neg : Bool := decide (d < 0)
  let u : Nat := if neg then (2 ^ 64 - u) % 2 ^ 64 else u
  let w : List Char :=
    if u < Second then
      if u = 0 then ['0', 's']
      else if u < Microsecond then
        let r := fmtFrac ['n', 's'] u 0
        fmtInt r.1 r.2
      else if u < Millisecond then
        let r := fmtFrac ['µ', 's'] u 3
        fmtInt r.1 r.2
      else
        let r := fmtFrac ['m', 's'] u 6
        fmtInt r.1 r.2
    else
      let r := fmtFrac ['s'] u 9
      let u := r.2
      let w := fmtInt r.1 (u % 60)
      let u := u / 60
      if u > 0 then
        let w := fmtInt ('m' :: w) (u % 60)
        let u := u / 60
        if u > 0 then fmtInt ('h' :: w) u else w
      else w
  if neg then '-' :: w else w

/-- Library `Duration.String`. -/
def Duration.String (d : Duration) : String := String.mk (Duration.format d)


/-- Conversion of an integer to `int64`, wrapping modulo `2 ^ 64`. -/
def wrapInt64 (x : Int) : Int := (x + 2 ^ 63) % 2 ^ 64 - 2 ^ 63

deriving instance DecidableEq for Except

/-- The ways `time.ParseDuration` fails. -/
inductive ParseError where
  /-- The error `time: invalid duration "<orig>"`. -/
  | invalidDuration
  /-- The error `time: missing unit in duration "<orig>"`. -/
  | missingUnit
  /-- The error `time: unknown unit "<u>" in duration "<orig>"`. -/
  | unknownUnit (u : String)
  deriving DecidableEq

/-- The test `'0' <= c && c <= '9'`. -/
def isDigit (c : Char) : Bool := decide ('0' ≤ c) && decide (c ≤ '9')

/-- The value `uint64(c) - '0'` of a digit character. -/
def digitValue (c : Char) : Nat := c.toNat - 48

/-- Library `leadingInt`, with the accumulator `x` as an argument: consumes
the leading digits; `none` is the error `errLeadingInt` (overflow). -/
def leadingIntAux (x : Nat) : List Char → Option (Nat × List Char)
  | [] => some (x, [])
  | c :: cs =>
    if !isDigit c then some (x, c :: cs)
    else if x > 2 ^ 63 / 10 then none
    else
      let x := x * 10 + digitValue c
      if x > 2 ^ 63 then none else leadingIntAux x cs

/-- Library `leadingInt`. -/
def leadingInt (s : List Char) : Option (Nat × List Char) := leadingIntAux 0 s

/-- Library `leadingFraction`, with the loop variables `x`, `scale` and
`overflow` as arguments: consumes the leading digits, accumulating them while
they fit. -/
def leadingFractionAux (x : Nat) (scale : Float64) (overflow : Bool) :
    List Char → Nat × Float64 × List Char
  | [] => (x, scale, [])
  | c :: cs =>
    if !isDigit c then (x, scale, c :: cs)
    else if overflow then leadingFractionAux x scale overflow cs
    else if x > (2 ^ 63 - 1) / 10 then leadingFractionAux x scale true cs
    else
      let y := x * 10 + digitValue c
      if y > 2 ^ 63 then leadingFractionAux x scale true cs
      else leadingFractionAux y (Float64.mul scale (Float64.ofNat 10)) overflow cs

/-- Library `leadingFraction`. -/
def leadingFraction (s : List Char) : Nat × Float64 × List Char :=
  leadingFractionAux 0 (Float64.ofNat 1) false s

/-- Library table `unitMap`. -/
def unitMap (u : String) : Option Nat :=
  if u = "ns" then some Nanosecond
  else if u = "us" then some Microsecond
  else if u = "µs" then some Microsecond
  else if u = "μs" then some Microsecond
  else if u = "ms" then some Millisecond
  else if u = "s" then some Second
  else if u = "m" then some Minute
  else if u = "h" then some Hour
  else none

/-- The test that ends the unit of a component: `c == '.' || '0' <= c && c <= '9'`. -/
def endsUnit (c : Char) : Bool := c == '.' || isDigit c

/-- The loop `for s != ""` of `ParseDuration` with the running total `d`
(a `uint64`).  Every pass consumes at least one character of `s`, so
`fuel = s.length` passes suffice. -/
def parseDurationLoop : Nat → Nat → List Char → Except ParseError Nat
  | _, d, [] => .ok d
  | 0, _, _ :: _ => .error .invalidDuration
  | fuel + 1, d, c :: cs =>
    let s := c :: cs
    if !(c == '.' || isDigit c) then .error .invalidDuration
    else
      match leadingInt s with
      | none => .error .invalidDuration
      | some (v, s1) =>
        let pre : Bool := s.length != s1.length
        let fr : Nat × Float64 × List Char × Bool :=
          match s1 with
          | '.' :: s2 =>
            let r := leadingFraction s2
            (r.1, r.2.1, r.2.2, s2.length != r.2.2.length)
          | _ => (0, Float64.ofNat 1, s1, false)
        let f := fr.1
        let scale := fr.2.1
        let s3 := fr.2.2.1
        let post := fr.2.2.2
        if !pre && !post then .error .invalidDuration
        else
          let u := s3.takeWhile (fun c => !endsUnit c)
          let s4 := s3.dropWhile (fun c => !endsUnit c)
          if u.length = 0 then .error .missingUnit
          else
            match unitMap (String.mk u) with
            | none => .error (.unknownUnit (String.mk u))
            | some unit =>
              if v > 2 ^ 63 / unit then .error .invalidDuration
              else
                let v := v * unit
                let fracOverflow : Bool := f > 0 &&
                  decide ((v + Float64.toUint64 (Float64.mul (Float64.ofNat f)
                    (Float64.div (Float64.ofNat unit) scale))) % 2 ^ 64 > 2 ^ 63)
                let v := if f > 0 then
                  (v + Float64.toUint64 (Float64.mul (Float64.ofNat f)
                    (Float64.div (Float64.ofNat unit) scale))) % 2 ^ 64 else v
                if fracOverflow then .error .invalidDuration
                else
                  let d := (d + v) % 2 ^ 64
                  if d > 2 ^ 63 then .error .invalidDuration
                  else parseDurationLoop fuel d s4

/-- Library `time.ParseDuration`: a signed sequence of decimal numbers, each
with an optional fraction and a unit suffix. -/
def ParseDuration (str : String) : Except ParseError Duration :=
  let s := str.data
  let neg : Bool := match s with
    | c :: _ => c == '-'
    | [] => false
  let s := match s with
    | c :: cs => if c == '-' || c == '+' then cs else s
    | [] => s
  if s = ['0'] then .ok 0
  else if s = [] then .error .invalidDuration
  else
    match parseDurationLoop s.length 0 s with
    | .error e => .error e
    | .ok d =>
      if neg then .ok (wrapInt64 (-(wrapInt64 (d : Int))))
      else if d > 2 ^ 63 - 1 then .error .invalidDuration
      else .ok (wrapInt64 (d : Int))


/-! ### Quantities used to relate `Duration.String` and `ParseDuration` -/

/-- The `float64` value `f` is exactly the natural number `x`. -/
@[reducible] def Float64.isNat (f : Float64) (x : Nat) : Prop := f.ratio.1 = x * f.ratio.2

/-- The value of `scale` in `leadingFraction` after `j` accumulated digits. -/
def scaleAfter : Nat → Float64
  | 0 => Float64.ofNat 1
  | j + 1 => Float64.mul (scaleAfter j) (Float64.ofNat 10)

/-- The digits `fmtFracLoop i buf v print` writes, read as a number, and their
count: the `i` low digits of `v` without the trailing zeros (all `i` digits
when `print` is already set). -/
def fracDigits : Nat → Nat → Bool → Nat × Nat
  | 0, _, _ => (0, 0)
  | i + 1, v, print =>
    let print1 := print || v % 10 != 0
    let r := fracDigits i (v / 10) print1
    if print1 then (r.1 * 10 + v % 10, r.2 + 1) else r

/-- The text `Duration.format` writes for the magnitude `u` of a duration. -/
def formatMagnitude (u : Nat) : List Char :=
  if u < Second then
    if u = 0 then ['0', 's']
    else if u < Microsecond then fmtInt (fmtFrac ['n', 's'] u 0).1 (fmtFrac ['n', 's'] u 0).2
    else if u < Millisecond then fmtInt (fmtFrac ['µ', 's'] u 3).1 (fmtFrac ['µ', 's'] u 3).2
    else fmtInt (fmtFrac ['m', 's'] u 6).1 (fmtFrac ['m', 's'] u 6).2
  else
    let r := fmtFrac ['s'] u 9
    let w := fmtInt r.1 (r.2 % 60)
    if r.2 / 60 > 0 then
      let w := fmtInt ('m' :: w) (r.2 / 60 % 60)
      if r.2 / 60 / 60 > 0 then fmtInt ('h' :: w) (r.2 / 60 / 60) else w
    else w

/-! ## The JSON codec of `TimeoutDuration` (config.go, lines 71-94)

`encoding/json` is library code.  A JSON document is represented by the
dynamic value `json.Unmarshal(b, &v)` stores in `v interface{}`: `nil`, `bool`,
`float64`, `string`, `[]interface{}` or `map[string]interface{}`.  A text that
is not well-formed JSON, or a number outside the `float64` range, makes
`json.Unmarshal` fail at config.go:77 and `UnmarshalJSON` return that error;
such texts have no value here. -/

/-- A decoded JSON document, as `json.Unmarshal` stores it in an `interface{}`. -/
inductive JSONValue where
  | null
  | bool (b : Bool)
  | number (f : Float64)
  | string (s : String)
  | array (elems : List JSONValue)
  | object (fields : List (String × JSONValue))

/-- The errors of `TimeoutDuration.UnmarshalJSON` on a well-formed document. -/
inductive DecodeError where
  /-- The error `errors.New("invalid duration")` of config.go:92. -/
  | invalidDuration
  /-- An error returned by `time.ParseDuration` (config.go:88). -/
  | parse (e : ParseError)
  deriving DecidableEq

/-- Method `TimeoutDuration.MarshalJSON` (config.go:71): the JSON string of
`td.String()`.  (`json.Marshal` of a string never fails.) -/
def TimeoutDuration.MarshalJSON (td : TimeoutDuration) : JSONValue :=
  JSONValue.string (Duration.String td.Duration)

/-- Method `TimeoutDuration.UnmarshalJSON` (config.go:75), on the decoded
document `v`; the result is the value of the receiver after a `nil` return. -/
def TimeoutDuration.UnmarshalJSON (v : JSONValue) : Except DecodeError TimeoutDuration :=
  match v with
  | JSONValue.number value => .ok ⟨Float64.toInt64 value⟩
  | JSONValue.string value =>
    match ParseDuration value with
    | .error err => .error (DecodeError.parse err)
    | .ok d => .ok ⟨d⟩
  | _ => .error DecodeError.invalidDuration

/-! ## The resolver `Get` (config.go, lines 96-248) -/

/-- Library `strings.Split(s, sep)` for a one-character separator, on
character lists: the pieces of `s` between the occurrences of `sep`. -/
def splitOnChar (sep : Char) : List Char → List (List Char)
  | [] => [[]]
  | c :: cs =>
    if c = sep then [] :: splitOnChar sep cs
    else
      match splitOnChar sep cs with
      | [] => [[c]]
      | piece :: pieces => (c :: piece) :: pieces

/-- The call `strings.Split(eventsString, ",")` of config.go:241. -/
def stringsSplitComma (s : String) : List String :=
  (splitOnChar ',' s.data).map String.mk

/-- What `Get` reads from the process environment: the decoded document of
`BACKMAN_CONFIG` (`none` when `os.Getenv` gives the empty string, so that
`len(env) > 0` fails) and the results of `os.Getenv` for the five single-value
variables, which are `""` for a variable that is unset or set to the empty
string.  The constants naming the variables are declared outside config.go. -/
structure Environ where
  BACKMAN_CONFIG : Option Config
  BackmanUsername : String
  BackmanPassword : String
  BackmanEncryptionKey : String
  BackmanTeamsWebhook : String
  BackmanTeamsEvents : String

/-- The state of `config` at config.go:208: the initial value, overwritten by
the decoded `config.json` when the file exists (`file = some _` is the value of
`config` after config.go:110), merged with `BACKMAN_CONFIG` when that is set. -/
def loadAndMerge (file : Option Config) (env : Option Config) : Option Config :=
  let config := Config.initial
  let config := match file with
    | some decoded => decoded
    | none => config
  match env with
  | some envConfig => mergeConfig config envConfig
  | none => some config

/-- The block "ensure we have default values" of config.go:210-216. -/
def applyDefaults (config : Config) : Config :=
  let c := config
  let c := if c.LogLevel.length = 0 then { c with LogLevel := "info" } else c
  let c := if c.S3.ServiceLabel.length = 0 then
    { c with S3 := { c.S3 with ServiceLabel := "dynstrg" } } else c
  c

/-- The single-value environment variables of config.go:218-245. -/
def applyEnvVars (config : Config) (environ : Environ) : Config :=
  let c := config
  let c := if environ.BackmanUsername ≠ "" then
    { c with Username := environ.BackmanUsername } else c
  let c := if environ.BackmanPassword ≠ "" then
    { c with Password := environ.BackmanPassword } else c
  let c := if environ.BackmanEncryptionKey ≠ "" then
    { c with S3 := { c.S3 with EncryptionKey := environ.BackmanEncryptionKey } } else c
  let c := if environ.BackmanTeamsWebhook ≠ "" then
    { c with Notifications :=
        { Teams := { c.Notifications.Teams with Webhook := environ.BackmanTeamsWebhook } } }
    else c
  let c := if environ.BackmanTeamsEvents ≠ "" then
    let eventsString := environ.BackmanTeamsEvents
    let events : List String := if eventsString ≠ "" then stringsSplitComma eventsString else []
    { c with Notifications := { Teams := { c.Notifications.Teams with Events := events } } }
    else c
  c

/-- The environment `environ` with the five single-value variables unset. -/
def Environ.withoutSingleValues (environ : Environ) : Environ :=
  { environ with
    BackmanUsername := "", BackmanPassword := "", BackmanEncryptionKey := "",
    BackmanTeamsWebhook := "", BackmanTeamsEvents := "" }

/-- Function `Get` (config.go:96): the configuration built by the one run of
the `once.Do` body, from the decoded file (`none`: no `config.json`) and the
environment; `none` when the merge panics. -/
def Get (file : Option Config) (environ : Environ) : Option Config :=
  match loadAndMerge file environ.BACKMAN_CONFIG with
  | none => none
  | some config => some (applyEnvVars (applyDefaults config) environ)


/-! ## The service registry (service/service.go)

The catalog `s.App.Services` is the `map[string][]cfenv.Service` of the
cfenv library: a finite map from a key to the instances listed under it.  The
classifier `IsValidServiceType` is declared outside service.go and is a
parameter.  The global random source is a parameter too: `draws i` holds the
results of the three calls `rand.Intn(59)`, `rand.Intn(59)`, `rand.Intn(23)`
made for the `i`-th schedule that is generated, each an arbitrary value below
its bound. -/

/-- Type `Retention` (service.go:35). -/
structure Retention where
  Days : Int
  Files : Int
  deriving DecidableEq

/-- Type `CFService` (service.go:26). -/
structure CFService where
  Name : String
  Label : String
  Plan : String
  Tags : List String
  Timeout : Duration
  Schedule : String
  Retention : Retention
  deriving DecidableEq

/-- The fields of the library type `cfenv.Service` that service.go reads. -/
structure CfenvService where
  Name : String
  Label : String
  Plan : String
  Tags : List String
  deriving DecidableEq

/-- Go `map[string][]cfenv.Service`, the type of `s.App.Services`. -/
abbrev Catalog := AList (fun _ : String => List CfenvService)

/-- The results of `rand.Intn(59)`, `rand.Intn(59)` and `rand.Intn(23)`. -/
abbrev Draw := Fin 59 × Fin 59 × Fin 23

/-- The zero value `CFService` of service.go:148. -/
def CFService.zero : CFService :=
  { Name := "", Label := "", Plan := "", Tags := [], Timeout := 0, Schedule := "",
    Retention := ⟨0, 0⟩ }

/-- The test `timeout.Seconds() <= 1` of service.go:77; see
`TimeoutDuration.secondsGtOne` for the reading of `Seconds`. -/
def TimeoutDuration.secondsLeOne (td : TimeoutDuration) : Bool :=
  decide (td.Duration ≤ (Second : Int))

/-- The call `fmt.Sprintf("%d %d %d * * *", ...)` of service.go:85 on the three
drawn numbers; `%d` prints a non-negative integer in decimal. -/
def generatedSchedule (draw : Draw) : String :=
  toString draw.1.val ++ " " ++ toString draw.2.1.val ++ " " ++ toString draw.2.2.val
    ++ " * * *"

/-- The body of the inner loop of `parseServices` (service.go:75-109) for one
catalog instance: the descriptor appended to `s.Services`, and the number of
schedules generated so far (`generated` before, the second component after). -/
def parseService (config : Config) (draws : Nat → Draw) (generated : Nat)
    (service : CfenvService) : CFService × Nat :=
  let timeout := (config.Services.get service.Name).Timeout
  let timeout : TimeoutDuration := if timeout.secondsLeOne then ⟨(Hour : Int)⟩ else timeout
  let schedule := (config.Services.get service.Name).Schedule
  let generatedNow : Bool := schedule.length = 0
  let schedule := if generatedNow then generatedSchedule (draws generated) else schedule
  let retentionDays := (config.Services.get service.Name).Retention.Days
  let retentionFiles := (config.Services.get service.Name).Retention.Files
  let retentionDays := if retentionDays ≤ 0 then 31 else retentionDays
  let retentionFiles := if retentionFiles ≤ 0 then 100 else retentionFiles
  ({ Name := service.Name, Label := service.Label, Plan := service.Plan, Tags := service.Tags,
     Timeout := timeout.Duration, Schedule := schedule,
     Retention := { Days := retentionDays, Files := retentionFiles } },
   if generatedNow then generated + 1 else generated)

/-- The inner loop `for _, service := range services` of service.go:74-110. -/
def parseInstances (config : Config) (draws : Nat → Draw) :
    List CFService × Nat → List CfenvService → List CFService × Nat
  | state, [] => state
  | state, service :: rest =>
    let r := parseService config draws state.2 service
    parseInstances config draws (state.1 ++ [r.1], r.2) rest

/-- One pass of the outer loop `for label, services := range s.App.Services`
(service.go:72-112). -/
def parseLabel (IsValidServiceType : String → Bool) (config : Config) (draws : Nat → Draw)
    (state : List CFService × Nat) (entry : Sigma (fun _ : String => List CfenvService)) :
    List CFService × Nat :=
  if IsValidServiceType entry.1 then parseInstances config draws state entry.2 else state

/-- Method `Service.parseServices` (service.go:69): the value of `s.Services`
it leaves, for the catalog `appServices` and the resolved configuration
`config`. -/
def parseServices (IsValidServiceType : String → Bool) (appServices : Catalog)
    (config : Config) (draws : Nat → Draw) : List CFService :=
  (appServices.entries.foldl (parseLabel IsValidServiceType config draws) ([], 0)).1

/-- The loop of service.go:120-125: the first entry with the given name, alone. -/
def firstNamed (serviceName : String) : List CFService → List CFService
  | [] => []
  | service :: rest =>
    if service.Name = serviceName then [service] else firstNamed serviceName rest

/-- Method `Service.GetServices` (service.go:116) on the list `s.Services`. -/
def GetServices (services : List CFService) (serviceType serviceName : String) :
    List CFService :=
  if serviceName.length > 0 then firstNamed serviceName services
  else if serviceType.length > 0 then
    services.filter (fun service => service.Label = serviceType)
  else services

/-- Method `Service.GetService` (service.go:142) on the list `s.Services`. -/
def GetService (services : List CFService) (serviceType serviceName : String) : CFService :=
  match services with
  | [] => CFService.zero
  | service :: rest =>
    if service.Name = serviceName ∧ service.Label = serviceType then service
    else GetService rest serviceType serviceName

/-- A classifier that recognizes the labels `mysql` and `postgres`. -/
def exampleIsValid (label : String) : Bool := label = "mysql" || label = "postgres"

/-- A sequence of draws: every schedule is generated from `(58, 0, 22)`. -/
def exampleDraws : Nat → Draw := fun _ => (58, 0, 22)

/-- Scenario B, the file: `services.db1.retention.days = 10` and nothing else. -/
def scenarioBFile : Config :=
  { Config.initial with
    Services := ServiceMap.made
      (AList.insert "db1" { ServiceConfig.zero with Retention := ⟨10, 0⟩ } ∅) }

/-- Scenario B, the environment: an override document that sets
`services.db1.schedule` and nothing else, and no single-value variable. -/
def scenarioBEnviron : Environ :=
  { BACKMAN_CONFIG := some { Config.zero with
      Services := ServiceMap.made
        (AList.insert "db1" { ServiceConfig.zero with Schedule := "0 0 3 * * *" } ∅) },
    BackmanUsername := "", BackmanPassword := "", BackmanEncryptionKey := "",
    BackmanTeamsWebhook := "", BackmanTeamsEvents := "" }

/-- Scenario B, the catalog: one instance named `db1`, listed under `label`. -/
def scenarioBCatalog (label plan : String) (tags : List String) : Catalog :=
  AList.insert label [{ Name := "db1", Label := label, Plan := plan, Tags := tags }] ∅

/-- A catalog with two instances under `mysql`, one under `postgres` and one
under the unrecognized label `redis`; `db2` has no configuration entry. -/
def exampleCatalog : Catalog :=
  AList.insert "mysql"
    [{ Name := "db1", Label := "mysql", Plan := "small", Tags := ["sql"] },
     { Name := "db2", Label := "mysql", Plan := "large", Tags := [] }]
  (AList.insert "redis" [{ Name := "cache", Label := "redis", Plan := "small", Tags := [] }]
  (AList.insert "postgres"
    [{ Name := "pg1", Label := "postgres", Plan := "small", Tags := [] }] ∅))

/-- A catalog that lists an instance labelled `unsupported-type` under the key
`mysql`. -/
def mislabelledCatalog : Catalog :=
  AList.insert "mysql"
    [{ Name := "db1", Label := "unsupported-type", Plan := "small", Tags := [] }] ∅

/-! ## Concrete configurations used to exercise the theorems -/

/-- A file configuration with one service entry and a list of Teams events. -/
def exampleFile : Config :=
  { Config.initial with
    LoggingTimestamp := true
    Notifications := ⟨⟨"https://example.org/hook", ["backup-failed"]⟩⟩
    Services := ServiceMap.made (AList.insert "db1"
      { ServiceConfig.zero with Timeout := ⟨7200000000000⟩, Retention := ⟨10, 0⟩ } ∅) }

/-- An override entry: a schedule and a timeout of half a second. -/
def exampleOverrideEntry : ServiceConfig :=
  { ServiceConfig.zero with Schedule := "0 0 3 * * *", Timeout := ⟨500000000⟩ }

/-- An override document with an entry for the same service. -/
def exampleOverride : Config :=
  { Config.zero with
    Username := "admin"
    Services := ServiceMap.made (AList.insert "db1" exampleOverrideEntry ∅) }

/-- The value of `config` after decoding a `config.json` whose only member is
`services`, set to JSON `null`: the decoder sets the map made at config.go:100
to nil and leaves every other field as it was. -/
def nilServicesFile : Config := { Config.initial with Services := ServiceMap.nil }

/-- The loop of config.go:171-207 on a map that is not nil, where no write
panics, as a function on the entries `m` the map holds: each pass reads the
entry of the key (the zero value when absent), merges the override entry over
it and stores the result under the key.  Lemma `mergeServices_made` shows that
`mergeServices` gives this map on such a base. -/
def mergeEntries (m : AList (fun _ : String => ServiceConfig))
    (l : List (Sigma (fun _ : String => ServiceConfig))) :
    AList (fun _ : String => ServiceConfig) :=
  l.foldl (fun acc entry => acc.insert entry.1
    (mergeServiceConfig ((acc.lookup entry.1).getD ServiceConfig.zero) entry.2)) m

/-- An environment in which only `BACKMAN_CONFIG` is set, to `exampleOverride`. -/
def exampleEnviron : Environ :=
  { BACKMAN_CONFIG := some exampleOverride, BackmanUsername := "", BackmanPassword := "",
    BackmanEncryptionKey := "", BackmanTeamsWebhook := "", BackmanTeamsEvents := "" }

/-- An environment that sets every single-value variable and no override document. -/
def exampleSingleValues : Environ :=
  { BACKMAN_CONFIG := none, BackmanUsername := "john", BackmanPassword := "doe",
    BackmanEncryptionKey := "0123456789abcdef", BackmanTeamsWebhook := "https://example.org/w",
    BackmanTeamsEvents := "backup-success,backup-failed" }

/-- Scenario D, the file: a `config.json` whose only setting is the Teams event
list `["backup-failed"]`. -/
def scenarioDFile : Config :=
  { Config.initial with Notifications := ⟨⟨"", ["backup-failed"]⟩⟩ }

/-- Scenario D, the environment: `BACKMAN_TEAMS_EVENTS` set to the empty
string, for which `os.Getenv` gives `""`, and nothing else set. -/
def scenarioDEnviron : Environ :=
  { BACKMAN_CONFIG := none, BackmanUsername := "", BackmanPassword := "",
    BackmanEncryptionKey := "", BackmanTeamsWebhook := "", BackmanTeamsEvents := "" }

/-- Scenario A: no single-value variable, and an override document that sets
only the username, to `admin`. -/
def scenarioA : Environ :=
  { BACKMAN_CONFIG := some { Config.zero with Username := "admin" },
    BackmanUsername := "", BackmanPassword := "", BackmanEncryptionKey := "",
    BackmanTeamsWebhook := "", BackmanTeamsEvents := "" }

/-! ## Lemmas on the merge -/

theorem string_length_pos_iff (s : String) : s.length > 0 ↔ s ≠ "" := by
  rw [gt_iff_lt, Nat.pos_iff_ne_zero, ne_eq, ne_eq]
  constructor
  · intro h e; apply h; rw [e]; rfl
  · intro h e; apply h
    cases s with
    | mk l =>
      have hl : l.length = 0 := e
      rw [List.length_eq_zero] at hl
      subst hl; rfl

theorem list_length_pos_iff {α : Type} (l : List α) : l.length > 0 ↔ l ≠ [] := by
  rw [gt_iff_lt, List.length_pos]

theorem secondsGtOne_iff (td : TimeoutDuration) :
    td.secondsGtOne = true ↔ (Second : Int) < td.Duration := by
  simp [TimeoutDuration.secondsGtOne]

/-- The statements of config.go:126-170 do not touch the services map. -/
theorem mergeTopLevel_Services (b e : Config) : (mergeTopLevel b e).Services = b.Services := by
  simp only [mergeTopLevel, apply_ite Config.Services, ite_self]

/-- On a map that is not nil every pass of the loop completes, and the loop
gives the map of `mergeEntries`. -/
theorem foldlM_mergeServiceStep_made (l : List (Sigma (fun _ : String => ServiceConfig)))
    (m : AList (fun _ : String => ServiceConfig)) :
    l.foldlM mergeServiceStep (ServiceMap.made m) = some (ServiceMap.made (mergeEntries m l)) := by
  induction l generalizing m with
  | nil => rfl
  | cons e l ih =>
    rw [List.foldlM_cons]
    show (some (ServiceMap.made (m.insert e.1
      (mergeServiceConfig ((m.lookup e.1).getD ServiceConfig.zero) e.2))) >>= _) = _
    exact (ih _).trans rfl

theorem mergeServices_made (m : AList (fun _ : String => ServiceConfig)) (env : ServiceMap) :
    mergeServices (ServiceMap.made m) env =
      some (ServiceMap.made (mergeEntries m env.alist.entries)) :=
  foldlM_mergeServiceStep_made env.alist.entries m

/-- On the nil map the loop completes only when it has no pass to make: the
first pass panics at the write of config.go:206. -/
theorem mergeServices_nil (env : ServiceMap) :
    mergeServices ServiceMap.nil env =
      if env.alist.entries = [] then some ServiceMap.nil else none := by
  unfold mergeServices
  cases env.alist.entries with
  | nil => rfl
  | cons e l =>
    rw [List.foldlM_cons]
    rfl

theorem keys_eq_nil_iff (m : ServiceMap) : m.keys = [] ↔ m.alist.entries = [] := by
  unfold ServiceMap.keys AList.keys List.keys
  exact List.map_eq_nil_iff

/-- When the merge block completes: always on a base map that is not nil, and
on the nil map only when the override has no service entry. -/
theorem mergeConfig_eq_none_iff (b e : Config) :
    mergeConfig b e = none ↔ (b.Services = ServiceMap.nil ∧ e.Services.keys ≠ []) := by
  unfold mergeConfig
  simp only [mergeTopLevel_Services]
  cases hb : b.Services with
  | nil =>
    rw [mergeServices_nil, ne_eq, keys_eq_nil_iff]
    by_cases he : e.Services.alist.entries = []
    · simp [he]
    · simp [he]
  | made m =>
    rw [mergeServices_made]
    simp

/-- The result of the merge block on a base map that is not nil. -/
theorem mergeConfig_made (b e : Config) (m : AList (fun _ : String => ServiceConfig))
    (hb : b.Services = ServiceMap.made m) :
    mergeConfig b e = some { mergeTopLevel b e with
      Services := ServiceMap.made (mergeEntries m e.Services.alist.entries) } := by
  unfold mergeConfig
  simp only [mergeTopLevel_Services, hb, mergeServices_made]

/-- Every result of the merge block is the state of config.go:170 with a new
services map. -/
theorem mergeConfig_eq_some (b e merged : Config) (h : mergeConfig b e = some merged) :
    merged = { mergeTopLevel b e with Services := merged.Services } := by
  unfold mergeConfig at h
  simp only [] at h
  cases hs : mergeServices (mergeTopLevel b e).Services e.Services with
  | none => rw [hs] at h; cases h
  | some s =>
    rw [hs] at h
    cases h
    rfl

/-- The loop over the override entries, read at one key: the key's own override
entry is merged over the base entry, and a key without one keeps its entry. -/
theorem lookup_mergeEntries (l : List (Sigma (fun _ : String => ServiceConfig)))
    (hl : l.NodupKeys) (m : AList (fun _ : String => ServiceConfig)) (k : String) :
    (mergeEntries m l).lookup k =
      match l.dlookup k with
      | none => m.lookup k
      | some sc => some (mergeServiceConfig ((m.lookup k).getD ServiceConfig.zero) sc) := by
  induction l generalizing m with
  | nil => simp [mergeEntries]
  | cons e l ih =>
    obtain ⟨a, v⟩ := e
    rw [List.nodupKeys_cons] at hl
    obtain ⟨ha, hl⟩ := hl
    have hstep : mergeEntries m (⟨a, v⟩ :: l) =
        mergeEntries (m.insert a (mergeServiceConfig ((m.lookup a).getD ServiceConfig.zero) v))
          l := rfl
    rw [hstep, ih hl]
    by_cases hk : k = a
    · subst hk
      have hnone : l.dlookup k = none := List.dlookup_eq_none.mpr ha
      simp [hnone, List.dlookup_cons_eq]
    · rw [List.dlookup_cons_ne _ _ hk, AList.lookup_insert_ne hk]

/-- The merged services map of a base map that is not nil, read at one key. -/
theorem lookup_mergeServices (m : AList (fun _ : String => ServiceConfig)) (env : ServiceMap)
    (k : String) :
    (ServiceMap.made (mergeEntries m env.alist.entries)).lookup k =
      match env.lookup k with
      | none => (ServiceMap.made m).lookup k
      | some sc => some (mergeServiceConfig ((ServiceMap.made m).get k) sc) :=
  lookup_mergeEntries env.alist.entries env.alist.nodupKeys m k

theorem mem_keys_iff_lookup_isSome (m : ServiceMap) (k : String) :
    k ∈ m.keys ↔ (m.lookup k).isSome = true := by
  unfold ServiceMap.keys ServiceMap.lookup
  rw [← AList.mem_keys, AList.lookup_isSome]

theorem mem_mergeServices (m : AList (fun _ : String => ServiceConfig)) (env : ServiceMap)
    (k : String) :
    k ∈ (ServiceMap.made (mergeEntries m env.alist.entries)).keys ↔
      k ∈ (ServiceMap.made m).keys ∨ k ∈ env.keys := by
  rw [mem_keys_iff_lookup_isSome, mem_keys_iff_lookup_isSome, mem_keys_iff_lookup_isSome,
    lookup_mergeServices]
  cases h : env.lookup k <;> simp

/-- The fields of a merged service entry, one by one. -/
theorem mergeServiceConfig_fields (b sc : ServiceConfig) :
    (mergeServiceConfig b sc).Schedule = (if sc.Schedule ≠ "" then sc.Schedule else b.Schedule) ∧
    (mergeServiceConfig b sc).Timeout =
      (if (Second : Int) < sc.Timeout.Duration then sc.Timeout else b.Timeout) ∧
    (mergeServiceConfig b sc).Retention.Days =
      (if 0 < sc.Retention.Days then sc.Retention.Days else b.Retention.Days) ∧
    (mergeServiceConfig b sc).Retention.Files =
      (if 0 < sc.Retention.Files then sc.Retention.Files else b.Retention.Files) ∧
    (mergeServiceConfig b sc).DirectS3 = (if sc.DirectS3 = true then sc.DirectS3 else b.DirectS3) ∧
    (mergeServiceConfig b sc).DisableColumnStatistics =
      (if sc.DisableColumnStatistics = true then sc.DisableColumnStatistics
        else b.DisableColumnStatistics) ∧
    (mergeServiceConfig b sc).LogStdErr =
      (if sc.LogStdErr = true then sc.LogStdErr else b.LogStdErr) ∧
    (mergeServiceConfig b sc).ForceImport =
      (if sc.ForceImport = true then sc.ForceImport else b.ForceImport) ∧
    (mergeServiceConfig b sc).LocalBackupPath =
      (if sc.LocalBackupPath ≠ "" then sc.LocalBackupPath else b.LocalBackupPath) ∧
    (mergeServiceConfig b sc).BackupOptions =
      (if sc.BackupOptions ≠ [] then sc.BackupOptions else b.BackupOptions) ∧
    (mergeServiceConfig b sc).RestoreOptions =
      (if sc.RestoreOptions ≠ [] then sc.RestoreOptions else b.RestoreOptions) := by
  refine ⟨?_, ?_, ?_, ?_, ?_, ?_, ?_, ?_, ?_, ?_, ?_⟩
  · simp only [mergeServiceConfig, apply_ite ServiceConfig.Schedule, ite_self,
      string_length_pos_iff]
  · simp only [mergeServiceConfig, apply_ite ServiceConfig.Timeout, ite_self,
      secondsGtOne_iff]
  · simp only [mergeServiceConfig, apply_ite ServiceConfig.Retention,
      apply_ite RetentionConfig.Days, ite_self, gt_iff_lt]
  · simp only [mergeServiceConfig, apply_ite ServiceConfig.Retention,
      apply_ite RetentionConfig.Files, ite_self, gt_iff_lt]
  · simp only [mergeServiceConfig, apply_ite ServiceConfig.DirectS3, ite_self]
  · simp only [mergeServiceConfig, apply_ite ServiceConfig.DisableColumnStatistics, ite_self]
  · simp only [mergeServiceConfig, apply_ite ServiceConfig.LogStdErr, ite_self]
  · simp only [mergeServiceConfig, apply_ite ServiceConfig.ForceImport, ite_self]
  · simp only [mergeServiceConfig, apply_ite ServiceConfig.LocalBackupPath, ite_self,
      string_length_pos_iff]
  · simp only [mergeServiceConfig, apply_ite ServiceConfig.BackupOptions, ite_self,
      list_length_pos_iff]
  · simp only [mergeServiceConfig, apply_ite ServiceConfig.RestoreOptions, ite_self,
      list_length_pos_iff]


/-! ## Claims on the merge of `BACKMAN_CONFIG` over the file -/

/-- C1: for every base configuration and every override configuration, each
top-level setting of the merged result (log level, logging timestamp,
username, password, disable-web, disable-metrics, unprotected-metrics, the six
S3 settings, Teams webhook, Teams events) is the override's value when that
value is present (non-empty string, `true`, non-empty list) and the base's
value otherwise; hence a `false` override never clears a `true` base, and a
non-empty override event list replaces the base list wholesale.  This holds of
the state reached after config.go:170, which every run reaches, and of the
result of the whole merge block, which exists unless the base services map is
nil and the override has a service entry. -/
theorem mergeConfig_top_level_presence_overwrite (base override : Config) :
    (mergeConfig base override = none ↔
      (base.Services = ServiceMap.nil ∧ override.Services.keys ≠ [])) ∧
    ∀ merged : Config,
      (merged = mergeTopLevel base override ∨ mergeConfig base override = some merged) →
      merged.LogLevel =
        (if override.LogLevel ≠ "" then override.LogLevel else base.LogLevel) ∧
      merged.LoggingTimestamp =
        (if override.LoggingTimestamp = true then override.LoggingTimestamp
          else base.LoggingTimestamp) ∧
      merged.Username =
        (if override.Username ≠ "" then override.Username else base.Username) ∧
      merged.Password =
        (if override.Password ≠ "" then override.Password else base.Password) ∧
      merged.DisableWeb =
        (if override.DisableWeb = true then override.DisableWeb else base.DisableWeb) ∧
      merged.DisableMetrics =
        (if override.DisableMetrics = true then override.DisableMetrics
          else base.DisableMetrics) ∧
      merged.UnprotectedMetrics =
        (if override.UnprotectedMetrics = true then override.UnprotectedMetrics
          else base.UnprotectedMetrics) ∧
      merged.S3.DisableSSL =
        (if override.S3.DisableSSL = true then override.S3.DisableSSL else base.S3.DisableSSL) ∧
      merged.S3.SkipSSLVerification =
        (if override.S3.SkipSSLVerification = true then override.S3.SkipSSLVerification
          else base.S3.SkipSSLVerification) ∧
      merged.S3.ServiceLabel =
        (if override.S3.ServiceLabel ≠ "" then override.S3.ServiceLabel
          else base.S3.ServiceLabel) ∧
      merged.S3.ServiceName =
        (if override.S3.ServiceName ≠ "" then override.S3.ServiceName
          else base.S3.ServiceName) ∧
      merged.S3.BucketName =
        (if override.S3.BucketName ≠ "" then override.S3.BucketName else base.S3.BucketName) ∧
      merged.S3.EncryptionKey =
        (if override.S3.EncryptionKey ≠ "" then override.S3.EncryptionKey
          else base.S3.EncryptionKey) ∧
      merged.Notifications.Teams.Webhook =
        (if override.Notifications.Teams.Webhook ≠ "" then override.Notifications.Teams.Webhook
          else base.Notifications.Teams.Webhook) ∧
      merged.Notifications.Teams.Events =
        (if override.Notifications.Teams.Events ≠ [] then override.Notifications.Teams.Events
          else base.Notifications.Teams.Events) ∧
      (merged.LoggingTimestamp = (base.LoggingTimestamp || override.LoggingTimestamp) ∧
        merged.DisableWeb = (base.DisableWeb || override.DisableWeb) ∧
        merged.DisableMetrics = (base.DisableMetrics || override.DisableMetrics) ∧
        merged.UnprotectedMetrics = (base.UnprotectedMetrics || override.UnprotectedMetrics) ∧
        merged.S3.DisableSSL = (base.S3.DisableSSL || override.S3.DisableSSL) ∧
        merged.S3.SkipSSLVerification =
          (base.S3.SkipSSLVerification || override.S3.SkipSSLVerification)) := by
  refine ⟨mergeConfig_eq_none_iff base override, ?_⟩
  intro merged h
  obtain ⟨s, hs⟩ : ∃ s, merged = { mergeTopLevel base override with Services := s } := by
    rcases h with h | h
    · exact ⟨(mergeTopLevel base override).Services, h⟩
    · exact ⟨_, mergeConfig_eq_some _ _ _ h⟩
  subst hs
  refine ⟨?_, ?_, ?_, ?_, ?_, ?_, ?_, ?_, ?_, ?_, ?_, ?_, ?_, ?_, ?_, ?_, ?_, ?_, ?_, ?_, ?_⟩
  · simp only [mergeTopLevel, apply_ite Config.LogLevel, ite_self, string_length_pos_iff]
  · simp only [mergeTopLevel, apply_ite Config.LoggingTimestamp, ite_self]
  · simp only [mergeTopLevel, apply_ite Config.Username, ite_self, string_length_pos_iff]
  · simp only [mergeTopLevel, apply_ite Config.Password, ite_self, string_length_pos_iff]
  · simp only [mergeTopLevel, apply_ite Config.DisableWeb, ite_self]
  · simp only [mergeTopLevel, apply_ite Config.DisableMetrics, ite_self]
  · simp only [mergeTopLevel, apply_ite Config.UnprotectedMetrics, ite_self]
  · simp only [mergeTopLevel, apply_ite Config.S3, apply_ite S3Config.DisableSSL, ite_self]
  · simp only [mergeTopLevel, apply_ite Config.S3, apply_ite S3Config.SkipSSLVerification,
      ite_self]
  · simp only [mergeTopLevel, apply_ite Config.S3, apply_ite S3Config.ServiceLabel, ite_self,
      string_length_pos_iff]
  · simp only [mergeTopLevel, apply_ite Config.S3, apply_ite S3Config.ServiceName, ite_self,
      string_length_pos_iff]
  · simp only [mergeTopLevel, apply_ite Config.S3, apply_ite S3Config.BucketName, ite_self,
      string_length_pos_iff]
  · simp only [mergeTopLevel, apply_ite Config.S3, apply_ite S3Config.EncryptionKey, ite_self,
      string_length_pos_iff]
  · simp only [mergeTopLevel, apply_ite Config.Notifications,
      apply_ite NotificationConfig.Teams, apply_ite TeamsNotificationConfig.Webhook, ite_self,
      string_length_pos_iff]
  · simp only [mergeTopLevel, apply_ite Config.Notifications,
      apply_ite NotificationConfig.Teams, apply_ite TeamsNotificationConfig.Events, ite_self,
      list_length_pos_iff]
  · simp only [mergeTopLevel, apply_ite Config.LoggingTimestamp, ite_self]
    cases base.LoggingTimestamp <;> cases override.LoggingTimestamp <;> rfl
  · simp only [mergeTopLevel, apply_ite Config.DisableWeb, ite_self]
    cases base.DisableWeb <;> cases override.DisableWeb <;> rfl
  · simp only [mergeTopLevel, apply_ite Config.DisableMetrics, ite_self]
    cases base.DisableMetrics <;> cases override.DisableMetrics <;> rfl
  · simp only [mergeTopLevel, apply_ite Config.UnprotectedMetrics, ite_self]
    cases base.UnprotectedMetrics <;> cases override.UnprotectedMetrics <;> rfl
  · simp only [mergeTopLevel, apply_ite Config.S3, apply_ite S3Config.DisableSSL, ite_self]
    cases base.S3.DisableSSL <;> cases override.S3.DisableSSL <;> rfl
  · simp only [mergeTopLevel, apply_ite Config.S3, apply_ite S3Config.SkipSSLVerification,
      ite_self]
    cases base.S3.SkipSSLVerification <;> cases override.S3.SkipSSLVerification <;> rfl

/-- C1 at a concrete input: the example override (username `admin`, nothing
else at the top level) merged over the example file (logging timestamp on, a
webhook and one event) completes, takes the username of the override and keeps
every other top-level setting of the file. -/
theorem mergeConfig_top_level_presence_overwrite_witness :
    ∃ merged : Config, mergeConfig exampleFile exampleOverride = some merged ∧
      merged.LogLevel = "" ∧
      merged.LoggingTimestamp = true ∧
      merged.Username = "admin" ∧
      merged.Notifications.Teams.Webhook = "https://example.org/hook" ∧
      merged.Notifications.Teams.Events = ["backup-failed"] := by
  obtain ⟨h1, h2, h3, _, _, _, _, _, _, _, _, _, _, h14, h15, _⟩ :=
    (mergeConfig_top_level_presence_overwrite exampleFile exampleOverride).2 _
      (Or.inr (mergeConfig_made exampleFile exampleOverride _ rfl))
  exact ⟨_, mergeConfig_made exampleFile exampleOverride _ rfl,
    h1.trans (by decide), h2.trans (by decide), h3.trans (by decide),
    h14.trans (by decide), h15.trans (by decide)⟩

/-- C2, as stated, fails: an override timeout of half a second is greater
than zero, yet the merged entry keeps the base timeout of two hours. -/
theorem mergeConfig_service_timeout_not_overwritten :
    exampleOverride.Services.lookup "db1" = some exampleOverrideEntry ∧
    exampleOverrideEntry.Timeout.Duration = 500000000 ∧
    (0 : Int) < (exampleOverride.Services.get "db1").Timeout.Duration ∧
    ∃ merged : Config, mergeConfig exampleFile exampleOverride = some merged ∧
      (merged.Services.get "db1").Timeout = (exampleFile.Services.get "db1").Timeout ∧
      (merged.Services.get "db1").Timeout ≠ (exampleOverride.Services.get "db1").Timeout :=
  ⟨by decide, by decide, by decide, _, mergeConfig_made exampleFile exampleOverride _ rfl,
    by decide, by decide⟩

/-- C2, amended: for every base configuration whose services map is not nil,
every override configuration and every service name with an entry `sc` in the
override map, the merge completes and the merged map has an entry for that
name, each of whose fields is the override entry's value when that value is
present (non-empty string, `true`, a number greater than zero, a timeout
greater than one second, a non-empty list) and otherwise the value of the base
entry for the name (the zero value if the base has none). -/
theorem mergeConfig_service_presence_overwrite (base override : Config) (name : String)
    (sc : ServiceConfig) (hbase : base.Services ≠ ServiceMap.nil)
    (h : override.Services.lookup name = some sc) :
    ∃ (mergedConfig : Config) (merged : ServiceConfig),
      mergeConfig base override = some mergedConfig ∧
      mergedConfig.Services.lookup name = some merged ∧
      merged.Schedule =
        (if sc.Schedule ≠ "" then sc.Schedule else (base.Services.get name).Schedule) ∧
      merged.Timeout =
        (if (Second : Int) < sc.Timeout.Duration then sc.Timeout
          else (base.Services.get name).Timeout) ∧
      merged.Retention.Days =
        (if 0 < sc.Retention.Days then sc.Retention.Days
          else (base.Services.get name).Retention.Days) ∧
      merged.Retention.Files =
        (if 0 < sc.Retention.Files then sc.Retention.Files
          else (base.Services.get name).Retention.Files) ∧
      merged.DirectS3 =
        (if sc.DirectS3 = true then sc.DirectS3 else (base.Services.get name).DirectS3) ∧
      merged.DisableColumnStatistics =
        (if sc.DisableColumnStatistics = true then sc.DisableColumnStatistics
          else (base.Services.get name).DisableColumnStatistics) ∧
      merged.LogStdErr =
        (if sc.LogStdErr = true then sc.LogStdErr else (base.Services.get name).LogStdErr) ∧
      merged.ForceImport =
        (if sc.ForceImport = true then sc.ForceImport
          else (base.Services.get name).ForceImport) ∧
      merged.LocalBackupPath =
        (if sc.LocalBackupPath ≠ "" then sc.LocalBackupPath
          else (base.Services.get name).LocalBackupPath) ∧
      merged.BackupOptions =
        (if sc.BackupOptions ≠ [] then sc.BackupOptions
          else (base.Services.get name).BackupOptions) ∧
      merged.RestoreOptions =
        (if sc.RestoreOptions ≠ [] then sc.RestoreOptions
          else (base.Services.get name).RestoreOptions) := by
  cases hb : base.Services with
  | nil => exact absurd hb hbase
  | made m =>
    refine ⟨_, mergeServiceConfig ((ServiceMap.made m).get name) sc,
      mergeConfig_made base override m hb, ?_,
      mergeServiceConfig_fields ((ServiceMap.made m).get name) sc⟩
    show (ServiceMap.made (mergeEntries m override.Services.alist.entries)).lookup name = _
    rw [lookup_mergeServices, h]

/-- The amended C2 at a concrete input: the entry `db1` of the example
override (schedule set, timeout of half a second) merged over the example file
(timeout of two hours, ten retention days). -/
theorem mergeConfig_service_presence_overwrite_witness :
    exampleFile.Services ≠ ServiceMap.nil ∧
    exampleOverride.Services.lookup "db1" = some exampleOverrideEntry ∧
    ∃ (mergedConfig : Config) (merged : ServiceConfig),
      mergeConfig exampleFile exampleOverride = some mergedConfig ∧
      mergedConfig.Services.lookup "db1" = some merged ∧
      merged.Schedule = "0 0 3 * * *" ∧
      merged.Timeout = ⟨7200000000000⟩ ∧
      merged.Retention.Days = 10 ∧
      merged.Retention.Files = 0 ∧
      merged.DirectS3 = false ∧
      merged.DisableColumnStatistics = false ∧
      merged.LogStdErr = false ∧
      merged.ForceImport = false ∧
      merged.LocalBackupPath = "" ∧
      merged.BackupOptions = [] ∧
      merged.RestoreOptions = [] :=
  ⟨by decide, by decide,
    mergeConfig_service_presence_overwrite exampleFile exampleOverride "db1"
      exampleOverrideEntry (by decide) (by decide)⟩

/-- On a base services map that is not nil the per-service merge completes and
is key-independent: for every two distinct service names `a` and `b`, adding or
altering the override entry for `a` (to any entry `v`) or removing it leaves
the merged entry stored for `b` unchanged, and a name `b` that is not a key of
the override map keeps its base entry. -/
theorem mergeConfig_services_key_independent_of_made (base override : Config) (a b : String)
    (hab : a ≠ b) (v : ServiceConfig) (hbase : base.Services ≠ ServiceMap.nil) :
    ∃ merged mergedAltered mergedRemoved : Config,
      mergeConfig base override = some merged ∧
      mergeConfig base
        { override with Services := ServiceMap.made (override.Services.alist.insert a v) } =
          some mergedAltered ∧
      mergeConfig base
        { override with Services := ServiceMap.made (override.Services.alist.erase a) } =
          some mergedRemoved ∧
      mergedAltered.Services.lookup b = merged.Services.lookup b ∧
      mergedRemoved.Services.lookup b = merged.Services.lookup b ∧
      (b ∉ override.Services.keys → merged.Services.lookup b = base.Services.lookup b) := by
  have hba : b ≠ a := fun e => hab e.symm
  cases hb : base.Services with
  | nil => exact absurd hb hbase
  | made m =>
    refine ⟨_, _, _, mergeConfig_made base override m hb, mergeConfig_made base _ m hb,
      mergeConfig_made base _ m hb, ?_, ?_, ?_⟩
    · show (ServiceMap.made (mergeEntries m _)).lookup b =
        (ServiceMap.made (mergeEntries m _)).lookup b
      rw [lookup_mergeServices, lookup_mergeServices]
      show (match (override.Services.alist.insert a v).lookup b with
        | none => _ | some sc => _) = _
      rw [AList.lookup_insert_ne hba]
      rfl
    · show (ServiceMap.made (mergeEntries m _)).lookup b =
        (ServiceMap.made (mergeEntries m _)).lookup b
      rw [lookup_mergeServices, lookup_mergeServices]
      show (match (override.Services.alist.erase a).lookup b with
        | none => _ | some sc => _) = _
      rw [AList.lookup_erase_ne hba]
      rfl
    · intro hnot
      show (ServiceMap.made (mergeEntries m _)).lookup b = _
      rw [lookup_mergeServices]
      have hnone : override.Services.lookup b = none := by
        cases hl : override.Services.lookup b with
        | none => rfl
        | some sc =>
          exact absurd ((mem_keys_iff_lookup_isSome _ _).mpr (by rw [hl]; rfl)) hnot
      rw [hnone]

/-- The key independence at a concrete input: adding an override entry for
`db2`, or removing it, leaves the merged entry of `db1` as it is, the schedule
of the override over the timeout and the retention days of the file. -/
theorem mergeConfig_services_key_independent_of_made_example :
    ∃ merged mergedAltered mergedRemoved : Config,
      mergeConfig exampleFile exampleOverride = some merged ∧
      mergeConfig exampleFile
        { exampleOverride with
          Services :=
            ServiceMap.made (exampleOverride.Services.alist.insert "db2" exampleOverrideEntry) } =
          some mergedAltered ∧
      mergeConfig exampleFile
        { exampleOverride with
          Services := ServiceMap.made (exampleOverride.Services.alist.erase "db2") } =
          some mergedRemoved ∧
      mergedAltered.Services.lookup "db1" = merged.Services.lookup "db1" ∧
      mergedRemoved.Services.lookup "db1" = merged.Services.lookup "db1" ∧
      merged.Services.lookup "db1" =
        some { ServiceConfig.zero with
          Schedule := "0 0 3 * * *", Timeout := ⟨7200000000000⟩, Retention := ⟨10, 0⟩ } := by
  obtain ⟨m, ma, mr, h1, h2, h3, h4, h5, _⟩ :=
    mergeConfig_services_key_independent_of_made exampleFile exampleOverride "db2" "db1"
      (by decide) exampleOverrideEntry (by decide)
  refine ⟨m, ma, mr, h1, h2, h3, h4, h5, ?_⟩
  have hm := Option.some.inj ((mergeConfig_made exampleFile exampleOverride _ rfl).symm.trans h1)
  rw [← hm]
  decide

/-- C3 fails on a base services map that is nil, the state after a
`config.json` that sets `services` to `null`: with the example override, which
has an entry for `db1` and none for `db2`, the write of config.go:206 panics
and no merged entry exists, for `db2` or any other name; with the entry of
`db1` removed from the override the merge completes.  The outcome for `db2`
depends on the override entry of `db1`. -/
theorem mergeConfig_nil_base_key_dependent :
    nilServicesFile.Services = ServiceMap.nil ∧
    "db1" ≠ "db2" ∧
    "db2" ∉ exampleOverride.Services.keys ∧
    mergeConfig nilServicesFile exampleOverride = none ∧
    ∃ merged : Config,
      mergeConfig nilServicesFile
        { exampleOverride with
          Services := ServiceMap.made (exampleOverride.Services.alist.erase "db1") } =
        some merged ∧
      merged.Services.lookup "db2" = nilServicesFile.Services.lookup "db2" := by
  refine ⟨rfl, by decide, by decide, by decide, _, rfl, by decide⟩

/-- On a base services map that is not nil the merge completes and never drops
a key: the key set of the merged services map is exactly the union of the key
sets of the base map and of the override map. -/
theorem mergeConfig_services_keys_union_of_made (base override : Config)
    (hbase : base.Services ≠ ServiceMap.nil) :
    ∃ merged : Config, mergeConfig base override = some merged ∧
      merged.Services.keys.toFinset =
        base.Services.keys.toFinset ∪ override.Services.keys.toFinset := by
  cases hb : base.Services with
  | nil => exact absurd hb hbase
  | made m =>
    refine ⟨_, mergeConfig_made base override m hb, ?_⟩
    ext k
    rw [Finset.mem_union, List.mem_toFinset, List.mem_toFinset, List.mem_toFinset]
    exact mem_mergeServices m override.Services k

/-- C4 fails on a base services map that is nil, the state after a
`config.json` that sets `services` to `null`: the base map has no key, the
example override has the key `db1`, and the first write of the loop
(config.go:206) panics, so that neither the merge block nor `Get` gives a
configuration: there is no merged services map holding the key `db1`. -/
theorem mergeConfig_nil_base_no_merged_keys :
    nilServicesFile.Services = ServiceMap.nil ∧
    nilServicesFile.Services.keys = [] ∧
    exampleOverride.Services.keys = ["db1"] ∧
    mergeServiceStep nilServicesFile.Services ⟨"db1", exampleOverrideEntry⟩ = none ∧
    mergeServices nilServicesFile.Services exampleOverride.Services = none ∧
    Get (some nilServicesFile) exampleEnviron = none := by
  refine ⟨rfl, rfl, rfl, rfl, by decide, by decide⟩

/-! ## Claims on the JSON codec of `TimeoutDuration` -/

theorem Float64.ratio_snd_pos (f : Float64) : 0 < f.ratio.2 := by
  unfold Float64.ratio
  split_ifs
  · exact Nat.one_pos
  · exact Nat.pos_pow_of_pos _ (by decide)

theorem Float64.toInt64_of_represents (f : Float64) (n : Int) (hrep : f.represents n)
    (hlo : -(2 : Int) ^ 63 ≤ n) (hhi : n < (2 : Int) ^ 63) : f.toInt64 = n := by
  obtain ⟨hval, hneg, hpos⟩ := hrep
  have hq : f.ratio.1 / f.ratio.2 = n.natAbs := by
    rw [hval]
    exact Nat.mul_div_cancel _ (Float64.ratio_snd_pos f)
  have hv : (if f.neg = true then -((n.natAbs : Nat) : Int) else ((n.natAbs : Nat) : Int)) = n := by
    cases hf : f.neg
    · have h0 := hpos hf
      simp only [Bool.false_eq_true, if_false]
      omega
    · have h0 := hneg hf
      simp only [if_true]
      omega
  unfold Float64.toInt64
  simp only [hq, hv]
  rw [if_pos ⟨hlo, hhi⟩]

theorem bitLenAux_bounds (fuel n : Nat) (h : n ≤ fuel) :
    n < 2 ^ bitLenAux fuel n ∧ (0 < n → 2 ^ (bitLenAux fuel n - 1) ≤ n) := by
  induction fuel generalizing n with
  | zero =>
    have h0 : n = 0 := by omega
    subst h0
    simp [bitLenAux]
  | succ fuel ih =>
    unfold bitLenAux
    split_ifs with hn
    · subst hn; simp
    · have hhalf : n / 2 ≤ fuel := by omega
      obtain ⟨hup, hlow⟩ := ih (n / 2) hhalf
      constructor
      · rw [Nat.add_comm, Nat.pow_succ]
        omega
      · intro _
        rw [Nat.add_sub_cancel_left]
        by_cases h2 : n / 2 = 0
        · rw [h2]
          have : bitLenAux fuel 0 = 0 := by cases fuel <;> simp [bitLenAux]
          rw [this]
          simp
          omega
        · have hpos : 0 < n / 2 := Nat.pos_of_ne_zero h2
          have hl := hlow hpos
          have hk : 1 ≤ bitLenAux fuel (n / 2) := by
            by_contra hcon
            have : bitLenAux fuel (n / 2) = 0 := by omega
            rw [this] at hup
            simp at hup
            omega
          obtain ⟨k, hk2⟩ : ∃ k, bitLenAux fuel (n / 2) = k + 1 :=
            ⟨_, (Nat.sub_add_cancel hk).symm⟩
          rw [hk2] at hl ⊢
          rw [Nat.add_sub_cancel] at hl
          rw [Nat.pow_succ]
          omega

/-- A positive `n` has exactly `bitLen n` binary digits. -/
theorem bitLen_bounds (n : Nat) (hn : 0 < n) :
    n < 2 ^ bitLen n ∧ 2 ^ (bitLen n - 1) ≤ n :=
  ⟨(bitLenAux_bounds n n le_rfl).1, (bitLenAux_bounds n n le_rfl).2 hn⟩

theorem roundNearestEven_one (m : Nat) : roundNearestEven m 1 = m := by
  simp [roundNearestEven, Nat.mod_one]

theorem scaleRatio_ofNat (n d k : Nat) : scaleRatio n d (k : Int) = (n, d * 2 ^ k) := by
  simp [scaleRatio]

theorem scaleRatio_negSucc (n d k : Nat) :
    scaleRatio n d (-((k + 1 : Nat) : Int)) = (n * 2 ^ (k + 1), d) := by
  have hneg : ¬ (0 : Int) ≤ -((k + 1 : Nat) : Int) := by omega
  have htn : (- -((k + 1 : Nat) : Int)).toNat = k + 1 := by omega
  simp only [scaleRatio, if_neg hneg, htn]

/-- Conversion to `float64` is exact on the integers up to `2 ^ 53`. -/
theorem Float64.ofNat_exact (n : Nat) (hn : n ≤ 2 ^ 53) :
    (Float64.ofNat n).ratio.1 = n * (Float64.ofNat n).ratio.2 := by
  by_cases h0 : n = 0
  · subst h0
    decide
  · have hpos : 0 < n := Nat.pos_of_ne_zero h0
    obtain ⟨hup, hlow⟩ := bitLen_bounds n hpos
    have hb1 : 1 ≤ bitLen n := by
      by_contra hcon
      have : bitLen n = 0 := by omega
      rw [this] at hup
      omega
    have hb54 : bitLen n ≤ 54 := by
      by_contra hcon
      have h54 : 54 ≤ bitLen n - 1 := by omega
      have := Nat.pow_le_pow_right (show 0 < 2 by decide) h54
      omega
    have hone : bitLen 1 = 1 := by decide
    obtain ⟨k, hk⟩ : ∃ k, bitLen n + k = 54 := ⟨54 - bitLen n, by omega⟩
    have hlow2 : 2 ^ 53 ≤ n * 2 ^ k := by
      have h53 : bitLen n - 1 + k = 53 := by omega
      calc 2 ^ 53 = 2 ^ (bitLen n - 1) * 2 ^ k := by rw [← Nat.pow_add, h53]
        _ ≤ n * 2 ^ k := Nat.mul_le_mul_right _ hlow
    have he0 : ((bitLen n : Nat) : Int) - ((bitLen 1 : Nat) : Int) - 53 = -((k : Nat) : Int) := by
      rw [hone]; omega
    have hcond : ¬ (n = 0 ∨ 1 = 0) := by omega
    have hq : ¬ ((scaleRatio n 1 (-((k : Nat) : Int))).1 / (scaleRatio n 1 (-((k : Nat) : Int))).2
        < 2 ^ 53) := by
      cases k with
      | zero =>
        have : scaleRatio n 1 (-((0 : Nat) : Int)) = (n, 1 * 2 ^ 0) := scaleRatio_ofNat n 1 0
        rw [this]
        simp at hlow2 ⊢
        omega
      | succ j =>
        rw [scaleRatio_negSucc]
        simp only [Nat.div_one]
        omega
    unfold Float64.ofNat Float64.ofRatio
    rw [if_neg hcond]
    simp only [he0, if_neg hq]
    match k, hk, hlow2 with
    | 0, hk, hlow2 =>
      have hn53 : n = 2 ^ 53 := by
        simp at hlow2
        omega
      subst hn53
      decide
    | 1, hk, hlow2 =>
      have he : (-((1 : Nat) : Int) + 1) = ((0 : Nat) : Int) := by omega
      rw [he, scaleRatio_ofNat]
      simp [roundNearestEven_one, Float64.ratio]
    | j + 2, hk, hlow2 =>
      have he : (-((j + 2 : Nat) : Int) + 1) = -((j + 1 : Nat) : Int) := by omega
      rw [he, scaleRatio_negSucc]
      have hneg : ¬ (0 : Int) ≤ -((j + 1 : Nat) : Int) := by omega
      have htn : (- -((j + 1 : Nat) : Int)).toNat = j + 1 := by omega
      simp only [roundNearestEven_one, Float64.ratio, if_neg hneg, htn]

theorem Float64.ofInt_represents (n : Int) (hn : n.natAbs ≤ 2 ^ 53) :
    (Float64.ofInt n).represents n := by
  refine ⟨Float64.ofNat_exact n.natAbs hn, ?_, ?_⟩
  · intro h
    have hlt : n < 0 := by simpa [Float64.ofInt] using h
    omega
  · intro h
    have hlt : ¬ n < 0 := by simpa [Float64.ofInt] using h
    omega

/-- C5, as stated, fails: the JSON string `"2h"` decodes to two hours, and
two hours encode as the JSON string `"2h0m0s"`, not `"2h"`. -/
theorem MarshalJSON_UnmarshalJSON_2h_is_not_2h :
    TimeoutDuration.UnmarshalJSON (JSONValue.string "2h") = .ok ⟨7200000000000⟩ ∧
    TimeoutDuration.MarshalJSON ⟨7200000000000⟩ = JSONValue.string "2h0m0s" ∧
    TimeoutDuration.MarshalJSON ⟨7200000000000⟩ ≠ JSONValue.string "2h" := by
  refine ⟨by decide, ?_, ?_⟩
  · show JSONValue.string (Duration.String 7200000000000) = JSONValue.string "2h0m0s"
    exact congrArg JSONValue.string (by decide)
  · show JSONValue.string (Duration.String 7200000000000) ≠ JSONValue.string "2h"
    intro h
    exact absurd (JSONValue.string.inj h) (by decide)

/-- C5, amended: decoding the JSON string `"2h"` and encoding the result
yields the JSON string `"2h0m0s"`, the text `Duration.String` gives for two
hours; decoding that text gives the same duration as decoding `"2h"`. -/
theorem MarshalJSON_UnmarshalJSON_2h :
    (TimeoutDuration.UnmarshalJSON (JSONValue.string "2h")).map TimeoutDuration.MarshalJSON
      = .ok (JSONValue.string "2h0m0s") ∧
    TimeoutDuration.UnmarshalJSON (JSONValue.string "2h0m0s")
      = TimeoutDuration.UnmarshalJSON (JSONValue.string "2h") := by
  have hdec : TimeoutDuration.UnmarshalJSON (JSONValue.string "2h") = .ok ⟨7200000000000⟩ := by
    decide
  have henc : Duration.String 7200000000000 = "2h0m0s" := by decide
  refine ⟨?_, by decide⟩
  rw [hdec]
  show Except.ok (JSONValue.string (Duration.String 7200000000000)) = _
  rw [henc]

/-- C6, as stated, fails: the JSON number 9007199254740993 (2^53 + 1, well
within the `int64` range) decodes successfully, but to 9007199254740992 ns:
the decoder holds the number as a `float64`. -/
theorem UnmarshalJSON_number_loses_precision :
    TimeoutDuration.UnmarshalJSON (JSONValue.number (Float64.ofInt 9007199254740993))
      = .ok ⟨9007199254740992⟩ ∧
    (⟨9007199254740992⟩ : TimeoutDuration) ≠ ⟨9007199254740993⟩ ∧
    (9007199254740993 : Int) < 2 ^ 63 := by
  decide

/-- C6, amended: a JSON number written as an integer `n` of magnitude at most
`2 ^ 53` decodes to the duration of `n` nanoseconds; a JSON string decodes to
what `time.ParseDuration` gives for it; and the number `7200000000000` and the
string `"2h"` both decode, to the same duration of 7 200 000 000 000 ns. -/
theorem UnmarshalJSON_number_and_string_agree (n : Int) (hn : n.natAbs ≤ 2 ^ 53) :
    TimeoutDuration.UnmarshalJSON (JSONValue.number (Float64.ofInt n)) = .ok ⟨n⟩ ∧
    (∀ s : String, TimeoutDuration.UnmarshalJSON (JSONValue.string s) =
      match ParseDuration s with
      | .ok d => .ok ⟨d⟩
      | .error err => .error (DecodeError.parse err)) ∧
    TimeoutDuration.UnmarshalJSON (JSONValue.number (Float64.ofInt 7200000000000))
      = .ok ⟨7200000000000⟩ ∧
    TimeoutDuration.UnmarshalJSON (JSONValue.string "2h") = .ok ⟨7200000000000⟩ ∧
    TimeoutDuration.UnmarshalJSON (JSONValue.number (Float64.ofInt 7200000000000))
      = TimeoutDuration.UnmarshalJSON (JSONValue.string "2h") := by
  refine ⟨?_, ?_, by decide, by decide, by decide⟩
  · show Except.ok (TimeoutDuration.mk (Float64.toInt64 (Float64.ofInt n))) = _
    have h53 : (2 : Nat) ^ 53 = 9007199254740992 := by norm_num
    have h63 : (2 : Int) ^ 63 = 9223372036854775808 := by norm_num
    rw [Float64.toInt64_of_represents _ n (Float64.ofInt_represents n hn)
      (by rw [h63]; omega) (by rw [h63]; omega)]
  · intro s
    show (match ParseDuration s with
      | .error err => Except.error (DecodeError.parse err)
      | .ok d => Except.ok (TimeoutDuration.mk d)) = _
    cases ParseDuration s <;> rfl

/-- The amended C6 at a concrete input: the number 7 200 000 000 000. -/
theorem UnmarshalJSON_number_and_string_agree_witness :
    (7200000000000 : Int).natAbs ≤ 2 ^ 53 ∧
    TimeoutDuration.UnmarshalJSON (JSONValue.number (Float64.ofInt 7200000000000))
        = .ok ⟨7200000000000⟩ ∧
    TimeoutDuration.UnmarshalJSON (JSONValue.string "2h") = .ok ⟨7200000000000⟩ :=
  have h := UnmarshalJSON_number_and_string_agree 7200000000000 (by decide)
  ⟨by decide, h.1, h.2.2.2.1⟩

/-- C7: `UnmarshalJSON` rejects every JSON value that is neither a number nor
a string: a boolean, an object, an array and null each fail with the error
`invalid duration`; and a JSON string fails to decode exactly when
`time.ParseDuration` fails on it: its result is that function's error, or
the parsed duration. -/
theorem UnmarshalJSON_rejects_other_values :
    (∀ b : Bool, TimeoutDuration.UnmarshalJSON (JSONValue.bool b)
      = .error DecodeError.invalidDuration) ∧
    (∀ fields : List (String × JSONValue), TimeoutDuration.UnmarshalJSON (JSONValue.object fields)
      = .error DecodeError.invalidDuration) ∧
    (∀ elems : List JSONValue, TimeoutDuration.UnmarshalJSON (JSONValue.array elems)
      = .error DecodeError.invalidDuration) ∧
    TimeoutDuration.UnmarshalJSON JSONValue.null = .error DecodeError.invalidDuration ∧
    (∀ s : String,
      (∃ err, TimeoutDuration.UnmarshalJSON (JSONValue.string s) = .error err) ↔
        (∃ err, ParseDuration s = .error err)) ∧
    (∀ s : String, TimeoutDuration.UnmarshalJSON (JSONValue.string s) =
      match ParseDuration s with
      | .error err => .error (DecodeError.parse err)
      | .ok d => .ok ⟨d⟩) := by
  have hstr : ∀ s : String, TimeoutDuration.UnmarshalJSON (JSONValue.string s) =
      match ParseDuration s with
      | .error err => Except.error (DecodeError.parse err)
      | .ok d => Except.ok (TimeoutDuration.mk d) := fun _ => rfl
  refine ⟨fun _ => rfl, fun _ => rfl, fun _ => rfl, rfl, ?_, hstr⟩
  · intro s
    rw [hstr]
    cases h : ParseDuration s with
    | error e => exact ⟨fun _ => ⟨e, rfl⟩, fun _ => ⟨DecodeError.parse e, rfl⟩⟩
    | ok d =>
      constructor
      · rintro ⟨err, herr⟩
        cases herr
      · rintro ⟨err, herr⟩
        cases herr

/-! ## Claims on defaults and the single-value environment variables -/

theorem string_length_eq_zero_iff (s : String) : s.length = 0 ↔ s = "" := by
  have h := string_length_pos_iff s
  constructor
  · intro h0
    by_contra hne
    have := h.mpr hne
    omega
  · intro h0
    subst h0
    rfl

theorem splitOnChar_ne_nil (sep : Char) (l : List Char) : splitOnChar sep l ≠ [] := by
  cases l with
  | nil => simp [splitOnChar]
  | cons c cs =>
    unfold splitOnChar
    split_ifs
    · simp
    · cases splitOnChar sep cs <;> simp

/-- Joining the pieces with the separator gives the text back. -/
theorem intercalate_splitOnChar (sep : Char) (l : List Char) :
    [sep].intercalate (splitOnChar sep l) = l := by
  induction l with
  | nil => rfl
  | cons c cs ih =>
    unfold splitOnChar
    split_ifs with hc
    · obtain ⟨p, ps, hps⟩ := List.exists_cons_of_ne_nil (splitOnChar_ne_nil sep cs)
      rw [hps] at ih ⊢
      rw [← ih, hc]
      simp [List.intercalate, List.intersperse]
    · obtain ⟨p, ps, hps⟩ := List.exists_cons_of_ne_nil (splitOnChar_ne_nil sep cs)
      rw [hps] at ih ⊢
      rw [← ih]
      cases ps <;> simp [List.intercalate, List.intersperse]

/-- No piece contains the separator. -/
theorem splitOnChar_pieces (sep : Char) (l : List Char) :
    ∀ piece ∈ splitOnChar sep l, sep ∉ piece := by
  induction l with
  | nil => simp [splitOnChar]
  | cons c cs ih =>
    unfold splitOnChar
    split_ifs with hc
    · intro piece hp
      rcases List.mem_cons.mp hp with h | h
      · subst h; simp
      · exact ih piece h
    · obtain ⟨p, ps, hps⟩ := List.exists_cons_of_ne_nil (splitOnChar_ne_nil sep cs)
      rw [hps] at ih ⊢
      intro piece hp
      rcases List.mem_cons.mp hp with h | h
      · subst h
        intro hmem
        rcases List.mem_cons.mp hmem with h1 | h1
        · exact hc h1.symm
        · exact ih p (List.mem_cons_self _ _) h1
      · exact ih piece (List.mem_cons_of_mem _ h)

theorem applyEnvVars_withoutSingleValues (c : Config) (environ : Environ) :
    applyEnvVars c environ.withoutSingleValues = c := by
  simp [applyEnvVars, Environ.withoutSingleValues]

/-- When the merge of the file and `BACKMAN_CONFIG` panics: only when the file
left the services map nil and the override document has a service entry. -/
theorem loadAndMerge_eq_none_iff (file env : Option Config) :
    loadAndMerge file env = none ↔
      ∃ config envConfig : Config, file = some config ∧ env = some envConfig ∧
        config.Services = ServiceMap.nil ∧ envConfig.Services.keys ≠ [] := by
  cases file with
  | none =>
    cases env with
    | none => simp [loadAndMerge]
    | some envConfig =>
      have h : loadAndMerge none (some envConfig) = mergeConfig Config.initial envConfig := rfl
      rw [h, mergeConfig_eq_none_iff]
      simp [Config.initial]
  | some config =>
    cases env with
    | none => simp [loadAndMerge]
    | some envConfig =>
      have h : loadAndMerge (some config) (some envConfig) = mergeConfig config envConfig := rfl
      rw [h, mergeConfig_eq_none_iff]
      simp

/-- The function `Get` gives the merged configuration with the defaults and the
single-value variables applied, and gives nothing when the merge panics. -/
theorem Get_eq (file : Option Config) (environ : Environ) :
    Get file environ =
      (loadAndMerge file environ.BACKMAN_CONFIG).map
        (fun merged => applyEnvVars (applyDefaults merged) environ) := by
  unfold Get
  cases loadAndMerge file environ.BACKMAN_CONFIG <;> rfl

theorem Get_withoutSingleValues (file : Option Config) (environ : Environ) :
    Get file environ.withoutSingleValues
      = (loadAndMerge file environ.BACKMAN_CONFIG).map applyDefaults := by
  rw [Get_eq]
  have h : environ.withoutSingleValues.BACKMAN_CONFIG = environ.BACKMAN_CONFIG := rfl
  rw [h]
  cases loadAndMerge file environ.BACKMAN_CONFIG with
  | none => rfl
  | some merged =>
    show some (applyEnvVars (applyDefaults merged) environ.withoutSingleValues) = _
    rw [applyEnvVars_withoutSingleValues]
    rfl

/-- C8 fails: with a `config.json` whose Teams event list is
`["backup-failed"]` and `BACKMAN_TEAMS_EVENTS` set to the empty string
(`os.Getenv` gives `""`), the guard of config.go:237 skips the block that
would assign the empty list, and the resolved event list is still
`["backup-failed"]`. -/
theorem Get_empty_events_variable_keeps_events :
    scenarioDFile.Notifications.Teams.Events = ["backup-failed"] ∧
    scenarioDEnviron.BackmanTeamsEvents = "" ∧
    (Get (some scenarioDFile) scenarioDEnviron).map
      (fun resolved => resolved.Notifications.Teams.Events) = some ["backup-failed"] := by
  decide

/-- With the events variable empty the block of config.go:237-245 is skipped
for every file and override document: the resolved event list is the event
list of their merge. -/
theorem Get_empty_events_variable (file : Option Config) (environ : Environ)
    (h : environ.BackmanTeamsEvents = "") :
    (Get file environ).map (fun resolved => resolved.Notifications.Teams.Events)
      = (loadAndMerge file environ.BACKMAN_CONFIG).map
          (fun merged => merged.Notifications.Teams.Events) := by
  rw [Get_eq]
  cases loadAndMerge file environ.BACKMAN_CONFIG with
  | none => rfl
  | some merged =>
    show some _ = some _
    congr 1
    simp only [applyEnvVars, applyDefaults, h, ne_eq, not_true_eq_false, if_false,
      apply_ite Config.Notifications, apply_ite NotificationConfig.Teams,
      apply_ite TeamsNotificationConfig.Events, ite_self]

/-- C9: the single-value environment variables have the highest precedence.
For every file configuration and environment, `Get` gives a configuration with
the five variables set exactly when it gives one with none of them set (it
gives none only when the file left the services map nil and the override
document has a service entry, where the merge panics); the username, password,
encryption key and webhook of the resolved configuration are the value of the
corresponding variable when it is non-empty, and the resolved event list is
then the events variable split at every comma (the pieces joined by commas
give the variable back, and no piece contains a comma); a field whose variable
is empty, and every field without a variable, is what it would be with none of
the five variables set. -/
theorem Get_single_value_variables_override (file : Option Config) (environ : Environ) :
    ((Get file environ).isSome = (Get file environ.withoutSingleValues).isSome) ∧
    (Get file environ = none ↔
      ∃ config envConfig : Config, file = some config ∧
        environ.BACKMAN_CONFIG = some envConfig ∧
        config.Services = ServiceMap.nil ∧ envConfig.Services.keys ≠ []) ∧
    [','].intercalate ((stringsSplitComma environ.BackmanTeamsEvents).map String.data)
      = environ.BackmanTeamsEvents.data ∧
    (stringsSplitComma environ.BackmanTeamsEvents).all (fun piece => !piece.data.contains ',')
      = true ∧
    ∀ resolved unset : Config,
      Get file environ = some resolved → Get file environ.withoutSingleValues = some unset →
      resolved.Username =
        (if environ.BackmanUsername ≠ "" then environ.BackmanUsername else unset.Username) ∧
      resolved.Password =
        (if environ.BackmanPassword ≠ "" then environ.BackmanPassword else unset.Password) ∧
      resolved.S3.EncryptionKey =
        (if environ.BackmanEncryptionKey ≠ "" then environ.BackmanEncryptionKey
          else unset.S3.EncryptionKey) ∧
      resolved.Notifications.Teams.Webhook =
        (if environ.BackmanTeamsWebhook ≠ "" then environ.BackmanTeamsWebhook
          else unset.Notifications.Teams.Webhook) ∧
      resolved.Notifications.Teams.Events =
        (if environ.BackmanTeamsEvents ≠ "" then stringsSplitComma environ.BackmanTeamsEvents
          else unset.Notifications.Teams.Events) ∧
      resolved.LogLevel = unset.LogLevel ∧
      resolved.LoggingTimestamp = unset.LoggingTimestamp ∧
      resolved.DisableWeb = unset.DisableWeb ∧
      resolved.DisableMetrics = unset.DisableMetrics ∧
      resolved.UnprotectedMetrics = unset.UnprotectedMetrics ∧
      resolved.S3.DisableSSL = unset.S3.DisableSSL ∧
      resolved.S3.SkipSSLVerification = unset.S3.SkipSSLVerification ∧
      resolved.S3.ServiceLabel = unset.S3.ServiceLabel ∧
      resolved.S3.ServiceName = unset.S3.ServiceName ∧
      resolved.S3.BucketName = unset.S3.BucketName ∧
      resolved.Services = unset.Services ∧
      resolved.Foreground = unset.Foreground := by
  refine ⟨?_, ?_, ?_, ?_, ?_⟩
  · rw [Get_withoutSingleValues, Get_eq]
    cases loadAndMerge file environ.BACKMAN_CONFIG <;> rfl
  · rw [Get_eq, Option.map_eq_none', loadAndMerge_eq_none_iff]
  · unfold stringsSplitComma
    rw [List.map_map]
    have hid : (String.data ∘ String.mk) = id := rfl
    rw [hid, List.map_id]
    exact intercalate_splitOnChar ',' _
  · rw [List.all_eq_true]
    intro piece hp
    unfold stringsSplitComma at hp
    obtain ⟨chars, hchars, rfl⟩ := List.mem_map.mp hp
    have hnot := splitOnChar_pieces ',' _ chars hchars
    simpa using hnot
  intro resolved unset hres hunset
  rw [Get_withoutSingleValues] at hunset
  rw [Get_eq] at hres
  cases hm : loadAndMerge file environ.BACKMAN_CONFIG with
  | none => rw [hm] at hres; cases hres
  | some merged =>
    rw [hm] at hres hunset
    have hr : resolved = applyEnvVars (applyDefaults merged) environ :=
      (Option.some.inj hres).symm
    have hu : unset = applyDefaults merged := (Option.some.inj hunset).symm
    rw [hr, hu]
    generalize applyDefaults merged = c
    refine ⟨?_, ?_, ?_, ?_, ?_, ?_, ?_, ?_, ?_, ?_, ?_, ?_, ?_, ?_, ?_, ?_, ?_⟩
    · simp only [applyEnvVars, apply_ite Config.Username, ite_self]
    · simp only [applyEnvVars, apply_ite Config.Password, ite_self]
    · simp only [applyEnvVars, apply_ite Config.S3, apply_ite S3Config.EncryptionKey, ite_self]
    · simp only [applyEnvVars, apply_ite Config.Notifications,
        apply_ite NotificationConfig.Teams, apply_ite TeamsNotificationConfig.Webhook, ite_self]
    · simp only [applyEnvVars, apply_ite Config.Notifications,
        apply_ite NotificationConfig.Teams, apply_ite TeamsNotificationConfig.Events, ite_self]
      split_ifs <;> rfl
    · simp only [applyEnvVars, apply_ite Config.LogLevel, ite_self]
    · simp only [applyEnvVars, apply_ite Config.LoggingTimestamp, ite_self]
    · simp only [applyEnvVars, apply_ite Config.DisableWeb, ite_self]
    · simp only [applyEnvVars, apply_ite Config.DisableMetrics, ite_self]
    · simp only [applyEnvVars, apply_ite Config.UnprotectedMetrics, ite_self]
    · simp only [applyEnvVars, apply_ite Config.S3, apply_ite S3Config.DisableSSL, ite_self]
    · simp only [applyEnvVars, apply_ite Config.S3, apply_ite S3Config.SkipSSLVerification,
        ite_self]
    · simp only [applyEnvVars, apply_ite Config.S3, apply_ite S3Config.ServiceLabel, ite_self]
    · simp only [applyEnvVars, apply_ite Config.S3, apply_ite S3Config.ServiceName, ite_self]
    · simp only [applyEnvVars, apply_ite Config.S3, apply_ite S3Config.BucketName, ite_self]
    · simp only [applyEnvVars, apply_ite Config.Services, ite_self]
    · simp only [applyEnvVars, apply_ite Config.Foreground, ite_self]

/-- C9 at a concrete input: every single-value variable set, over the example
file; `Get` gives a configuration with the variables set and with them unset,
and the five fields are the values of the variables. -/
theorem Get_single_value_variables_override_witness :
    ∃ resolved unset : Config,
      Get (some exampleFile) exampleSingleValues = some resolved ∧
      Get (some exampleFile) exampleSingleValues.withoutSingleValues = some unset ∧
      resolved.Username = "john" ∧
      resolved.Password = "doe" ∧
      resolved.S3.EncryptionKey = "0123456789abcdef" ∧
      resolved.Notifications.Teams.Webhook = "https://example.org/w" ∧
      resolved.Notifications.Teams.Events = ["backup-success", "backup-failed"] ∧
      unset.Notifications.Teams.Events = ["backup-failed"] :=
  have h := (Get_single_value_variables_override (some exampleFile) exampleSingleValues).2.2.2.2
    _ _ rfl rfl
  ⟨_, _, rfl, rfl, h.1.trans (by decide), h.2.1.trans (by decide), h.2.2.1.trans (by decide),
    h.2.2.2.1.trans (by decide), h.2.2.2.2.1.trans (by decide), by decide⟩

/-- C10: defaults are applied only to fields still unset after the merge.  For
every file configuration and environment, `Get` gives a configuration whenever
the merge of the file and the override document completes (it panics only when
the file left the services map nil and the override document has a service
entry); the resolved log level is then the merged log level if that is
non-empty and `info` otherwise, and the resolved S3 service label is the merged
label if non-empty and `dynstrg` otherwise, so neither is empty; and in
Scenario A (no file, override document with only the username `admin`) the
resolved username is `admin` and the log level `info`. -/
theorem Get_defaults (file : Option Config) (environ : Environ) :
    (loadAndMerge file environ.BACKMAN_CONFIG = none ↔
      ∃ config envConfig : Config, file = some config ∧
        environ.BACKMAN_CONFIG = some envConfig ∧
        config.Services = ServiceMap.nil ∧ envConfig.Services.keys ≠ []) ∧
    (∀ merged : Config, loadAndMerge file environ.BACKMAN_CONFIG = some merged →
      ∃ resolved : Config, Get file environ = some resolved ∧
        resolved.LogLevel = (if merged.LogLevel ≠ "" then merged.LogLevel else "info") ∧
        resolved.S3.ServiceLabel =
          (if merged.S3.ServiceLabel ≠ "" then merged.S3.ServiceLabel else "dynstrg") ∧
        resolved.LogLevel ≠ "" ∧
        resolved.S3.ServiceLabel ≠ "") ∧
    (∃ resolved : Config, Get none scenarioA = some resolved ∧
      resolved.Username = "admin" ∧ resolved.LogLevel = "info") := by
  refine ⟨loadAndMerge_eq_none_iff file environ.BACKMAN_CONFIG, ?_, ⟨_, rfl, by decide, by decide⟩⟩
  intro merged hm
  have hG : Get file environ = some (applyEnvVars (applyDefaults merged) environ) := by
    rw [Get_eq, hm]; rfl
  have h1 : (applyEnvVars (applyDefaults merged) environ).LogLevel =
      (if merged.LogLevel ≠ "" then merged.LogLevel else "info") := by
    simp only [applyEnvVars, applyDefaults, apply_ite Config.LogLevel, ite_self,
      string_length_eq_zero_iff]
    split_ifs <;> simp_all
  have h2 : (applyEnvVars (applyDefaults merged) environ).S3.ServiceLabel =
      (if merged.S3.ServiceLabel ≠ "" then merged.S3.ServiceLabel else "dynstrg") := by
    simp only [applyEnvVars, applyDefaults, apply_ite Config.S3,
      apply_ite S3Config.ServiceLabel, ite_self, string_length_eq_zero_iff]
    split_ifs <;> simp_all
  refine ⟨_, hG, h1, h2, ?_, ?_⟩
  · rw [h1]
    split_ifs with h
    · exact h
    · decide
  · rw [h2]
    split_ifs with h
    · exact h
    · decide

/-- C10 at a concrete input: the example override merged over the example file
sets neither the log level nor the S3 service label, and `Get` gives a
configuration with the defaults `info` and `dynstrg`. -/
theorem Get_defaults_witness :
    ∃ resolved : Config, Get (some exampleFile) exampleEnviron = some resolved ∧
      resolved.LogLevel = "info" ∧ resolved.S3.ServiceLabel = "dynstrg" := by
  obtain ⟨resolved, hG, h1, h2, _, _⟩ :=
    (Get_defaults (some exampleFile) exampleEnviron).2.1 _
      (mergeConfig_made exampleFile exampleOverride _ rfl)
  exact ⟨resolved, hG, h1.trans (by decide), h2.trans (by decide)⟩

/-! ## Lemmas on the service registry -/

theorem parseService_fields (config : Config) (draws : Nat → Draw) (generated : Nat)
    (service : CfenvService) :
    (parseService config draws generated service).1.Name = service.Name ∧
    (parseService config draws generated service).1.Label = service.Label ∧
    (parseService config draws generated service).1.Plan = service.Plan ∧
    (parseService config draws generated service).1.Tags = service.Tags ∧
    (parseService config draws generated service).1.Timeout =
      (if (Second : Int) < (config.Services.get service.Name).Timeout.Duration
        then (config.Services.get service.Name).Timeout.Duration else (Hour : Int)) ∧
    (parseService config draws generated service).1.Schedule =
      (if (config.Services.get service.Name).Schedule = "" then generatedSchedule (draws generated)
        else (config.Services.get service.Name).Schedule) ∧
    (parseService config draws generated service).1.Retention.Days =
      (if 0 < (config.Services.get service.Name).Retention.Days
        then (config.Services.get service.Name).Retention.Days else 31) ∧
    (parseService config draws generated service).1.Retention.Files =
      (if 0 < (config.Services.get service.Name).Retention.Files
        then (config.Services.get service.Name).Retention.Files else 100) := by
  refine ⟨rfl, rfl, rfl, rfl, ?_, ?_, ?_, ?_⟩
  · simp only [parseService, TimeoutDuration.secondsLeOne, decide_eq_true_eq,
      apply_ite TimeoutDuration.Duration]
    by_cases h : (config.Services.get service.Name).Timeout.Duration ≤ (Second : Int)
    · rw [if_pos h, if_neg (not_lt.mpr h)]
    · rw [if_neg h, if_pos (not_le.mp h)]
  · simp only [parseService, decide_eq_true_eq, string_length_eq_zero_iff]
  · simp only [parseService]
    split_ifs <;> first | rfl | omega
  · simp only [parseService]
    split_ifs <;> first | rfl | omega

theorem parseInstances_subset (config : Config) (draws : Nat → Draw)
    (services : List CfenvService) (state : List CFService × Nat) (e : CFService)
    (he : e ∈ state.1) : e ∈ (parseInstances config draws state services).1 := by
  induction services generalizing state with
  | nil => exact he
  | cons svc rest ih =>
    unfold parseInstances
    exact ih _ (List.mem_append_left _ he)

theorem parseInstances_sound (config : Config) (draws : Nat → Draw)
    (services : List CfenvService) (state : List CFService × Nat) (e : CFService)
    (he : e ∈ (parseInstances config draws state services).1) :
    e ∈ state.1 ∨ ∃ svc ∈ services, ∃ g, e = (parseService config draws g svc).1 := by
  induction services generalizing state with
  | nil => exact Or.inl he
  | cons svc rest ih =>
    unfold parseInstances at he
    rcases ih _ he with h | ⟨svc2, hmem, g, hg⟩
    · rcases List.mem_append.mp h with h1 | h1
      · exact Or.inl h1
      · rw [List.mem_singleton] at h1
        exact Or.inr ⟨svc, List.mem_cons_self _ _, state.2, h1⟩
    · exact Or.inr ⟨svc2, List.mem_cons_of_mem _ hmem, g, hg⟩

theorem parseInstances_complete (config : Config) (draws : Nat → Draw)
    (services : List CfenvService) (state : List CFService × Nat) (svc : CfenvService)
    (hsvc : svc ∈ services) :
    ∃ g, (parseService config draws g svc).1 ∈ (parseInstances config draws state services).1 := by
  induction services generalizing state with
  | nil => cases hsvc
  | cons svc2 rest ih =>
    unfold parseInstances
    rcases List.mem_cons.mp hsvc with h | h
    · subst h
      exact ⟨state.2, parseInstances_subset config draws rest _ _
        (List.mem_append_right _ (List.mem_singleton_self _))⟩
    · exact ih _ h

theorem foldl_parseLabel_subset (isValid : String → Bool) (config : Config) (draws : Nat → Draw)
    (l : List (Sigma (fun _ : String => List CfenvService))) (state : List CFService × Nat)
    (e : CFService) (he : e ∈ state.1) :
    e ∈ (l.foldl (parseLabel isValid config draws) state).1 := by
  induction l generalizing state with
  | nil => exact he
  | cons entry rest ih =>
    rw [List.foldl_cons]
    apply ih
    unfold parseLabel
    split_ifs
    · exact parseInstances_subset config draws _ _ _ he
    · exact he

theorem foldl_parseLabel_sound (isValid : String → Bool) (config : Config) (draws : Nat → Draw)
    (l : List (Sigma (fun _ : String => List CfenvService))) (state : List CFService × Nat)
    (e : CFService) (he : e ∈ (l.foldl (parseLabel isValid config draws) state).1) :
    e ∈ state.1 ∨ ∃ entry ∈ l, isValid entry.1 = true ∧
      ∃ svc ∈ entry.2, ∃ g, e = (parseService config draws g svc).1 := by
  induction l generalizing state with
  | nil => exact Or.inl he
  | cons entry rest ih =>
    rw [List.foldl_cons] at he
    rcases ih _ he with h | ⟨entry2, hmem, hvalid, hrest⟩
    · unfold parseLabel at h
      split_ifs at h with hv
      · rcases parseInstances_sound config draws _ _ _ h with h1 | h1
        · exact Or.inl h1
        · exact Or.inr ⟨entry, List.mem_cons_self _ _, hv, h1⟩
      · exact Or.inl h
    · exact Or.inr ⟨entry2, List.mem_cons_of_mem _ hmem, hvalid, hrest⟩

theorem foldl_parseLabel_complete (isValid : String → Bool) (config : Config)
    (draws : Nat → Draw) (l : List (Sigma (fun _ : String => List CfenvService)))
    (state : List CFService × Nat) (entry : Sigma (fun _ : String => List CfenvService))
    (hentry : entry ∈ l) (hvalid : isValid entry.1 = true) (svc : CfenvService)
    (hsvc : svc ∈ entry.2) :
    ∃ g, (parseService config draws g svc).1 ∈
      (l.foldl (parseLabel isValid config draws) state).1 := by
  induction l generalizing state with
  | nil => cases hentry
  | cons entry2 rest ih =>
    rw [List.foldl_cons]
    rcases List.mem_cons.mp hentry with h | h
    · subst h
      obtain ⟨g, hg⟩ := parseInstances_complete config draws entry.2 state svc hsvc
      refine ⟨g, foldl_parseLabel_subset isValid config draws rest _ _ ?_⟩
      unfold parseLabel
      rw [if_pos hvalid]
      exact hg
    · exact ih _ h

/-- Every derived descriptor is the descriptor of an instance listed under a
key that the classifier accepts. -/
theorem parseServices_sound (isValid : String → Bool) (catalog : Catalog) (config : Config)
    (draws : Nat → Draw) (e : CFService)
    (he : e ∈ parseServices isValid catalog config draws) :
    ∃ entry ∈ catalog.entries, isValid entry.1 = true ∧
      ∃ svc ∈ entry.2, ∃ g, e = (parseService config draws g svc).1 := by
  rcases foldl_parseLabel_sound isValid config draws catalog.entries ([], 0) e he with h | h
  · cases h
  · exact h

/-- Every instance listed under a key that the classifier accepts has a
derived descriptor. -/
theorem parseServices_complete (isValid : String → Bool) (catalog : Catalog) (config : Config)
    (draws : Nat → Draw) (entry : Sigma (fun _ : String => List CfenvService))
    (hentry : entry ∈ catalog.entries) (hvalid : isValid entry.1 = true) (svc : CfenvService)
    (hsvc : svc ∈ entry.2) :
    ∃ g, (parseService config draws g svc).1 ∈ parseServices isValid catalog config draws :=
  foldl_parseLabel_complete isValid config draws catalog.entries ([], 0) entry hentry hvalid
    svc hsvc

theorem firstNamed_eq_find (serviceName : String) (services : List CFService) :
    firstNamed serviceName services
      = (services.find? (fun e => decide (e.Name = serviceName))).toList := by
  induction services with
  | nil => rfl
  | cons e rest ih =>
    unfold firstNamed
    by_cases h : e.Name = serviceName
    · simp [h]
    · simp [h, ih]

theorem GetServices_subset (services : List CFService) (t n : String) (e : CFService)
    (he : e ∈ GetServices services t n) : e ∈ services := by
  unfold GetServices at he
  split_ifs at he
  · rw [firstNamed_eq_find] at he
    rw [Option.mem_toList] at he
    exact List.mem_of_find?_eq_some he
  · exact List.mem_of_mem_filter he
  · exact he

theorem GetService_eq_find (services : List CFService) (t n : String) :
    GetService services t n
      = (services.find? (fun e => decide (e.Name = n ∧ e.Label = t))).getD CFService.zero := by
  induction services with
  | nil => rfl
  | cons e rest ih =>
    unfold GetService
    by_cases h : e.Name = n ∧ e.Label = t
    · simp [h]
    · rw [if_neg h, ih]
      simp [h]

theorem GetService_mem_or_zero (services : List CFService) (t n : String) :
    GetService services t n = CFService.zero ∨ GetService services t n ∈ services := by
  rw [GetService_eq_find]
  cases h : services.find? (fun e => decide (e.Name = n ∧ e.Label = t)) with
  | none => exact Or.inl rfl
  | some e => exact Or.inr (List.mem_of_find?_eq_some h)

theorem splitOnChar_append_sep (sep : Char) (a rest : List Char) (ha : sep ∉ a) :
    splitOnChar sep (a ++ sep :: rest) = a :: splitOnChar sep rest := by
  induction a with
  | nil => simp [splitOnChar]
  | cons c cs ih =>
    have hc : c ≠ sep := fun h => ha (h ▸ List.mem_cons_self _ _)
    have hcs : sep ∉ cs := fun h => ha (List.mem_cons_of_mem _ h)
    rw [List.cons_append, splitOnChar, if_neg hc, ih hcs]

theorem generatedSchedule_data (draw : Draw) :
    (generatedSchedule draw).data =
      (toString draw.1.val).data ++ ' ' :: ((toString draw.2.1.val).data ++ ' ' ::
        ((toString draw.2.2.val).data ++ ' ' :: ('*' :: ' ' :: '*' :: ' ' :: ['*']))) := by
  unfold generatedSchedule
  simp only [String.data_append]
  simp

theorem toString_no_space_59 : ∀ n : Fin 59, ' ' ∉ (toString n.val).data := by decide

theorem toString_no_space_23 : ∀ n : Fin 23, ' ' ∉ (toString n.val).data := by decide

theorem splitOnChar_generatedSchedule (draw : Draw) :
    splitOnChar ' ' (generatedSchedule draw).data =
      [(toString draw.1.val).data, (toString draw.2.1.val).data, (toString draw.2.2.val).data,
        ['*'], ['*'], ['*']] := by
  rw [generatedSchedule_data,
    splitOnChar_append_sep _ _ _ (toString_no_space_59 draw.1),
    splitOnChar_append_sep _ _ _ (toString_no_space_59 draw.2.1),
    splitOnChar_append_sep _ _ _ (toString_no_space_23 draw.2.2)]
  rfl

/-! ## Claims on the service registry -/

/-- C11: for every outcome of the three random draws, the schedule generated
for an instance with no configured schedule splits at its spaces into exactly
six fields; fields 1 and 2 are the decimal texts of integers in [0,59], field
3 is the decimal text of an integer in [0,23], and fields 4 to 6 are `*`.  And
the resolved schedule of an instance is the configured schedule, unchanged,
when that is non-empty, and the generated one otherwise. -/
theorem generatedSchedule_shape (draw : Draw) (config : Config) (draws : Nat → Draw)
    (generated : Nat) (service : CfenvService) :
    (splitOnChar ' ' (generatedSchedule draw).data).length = 6 ∧
    (splitOnChar ' ' (generatedSchedule draw).data).map String.mk =
      [toString draw.1.val, toString draw.2.1.val, toString draw.2.2.val, "*", "*", "*"] ∧
    draw.1.val ≤ 59 ∧ draw.2.1.val ≤ 59 ∧ draw.2.2.val ≤ 23 ∧
    (toString draw.1.val).data.all isDigit = true ∧
    (toString draw.2.1.val).data.all isDigit = true ∧
    (toString draw.2.2.val).data.all isDigit = true ∧
    (parseService config draws generated service).1.Schedule =
      (if (config.Services.get service.Name).Schedule ≠ ""
        then (config.Services.get service.Name).Schedule
        else generatedSchedule (draws generated)) := by
  have h59 : ∀ n : Fin 59, (toString n.val).data.all isDigit = true := by decide
  have h23 : ∀ n : Fin 23, (toString n.val).data.all isDigit = true := by decide
  refine ⟨?_, ?_, by omega, by omega, by omega, h59 _, h59 _, h23 _, ?_⟩
  · rw [splitOnChar_generatedSchedule]
    rfl
  · rw [splitOnChar_generatedSchedule]
    rfl
  · rw [(parseService_fields config draws generated service).2.2.2.2.2.1]
    by_cases h : (config.Services.get service.Name).Schedule = ""
    · rw [if_pos h, if_neg (not_not.mpr h)]
    · rw [if_neg h, if_pos h]

/-- C12, on the code: no outcome of the draws `rand.Intn(59)`, `rand.Intn(59)`,
`rand.Intn(23)` generates a schedule whose seconds or minutes field is `59`, or
whose hours field is `23`; the largest generated fields are 58, 58 and 22. -/
theorem generatedSchedule_never_59_or_23 (draw : Draw) :
    generatedSchedule draw ≠ "59 0 0 * * *" ∧
    generatedSchedule draw ≠ "0 59 0 * * *" ∧
    generatedSchedule draw ≠ "0 0 23 * * *" ∧
    (splitOnChar ' ' (generatedSchedule draw).data).map String.mk ≠
      ["59", "59", "23", "*", "*", "*"] ∧
    generatedSchedule (58, 58, 22) = "58 58 22 * * *" := by
  have h59 : ∀ n : Fin 59, (toString n.val).data ≠ ['5', '9'] := by decide
  have h23 : ∀ n : Fin 23, (toString n.val).data ≠ ['2', '3'] := by decide
  have hsplit := splitOnChar_generatedSchedule draw
  refine ⟨?_, ?_, ?_, ?_, by decide⟩
  · intro h
    rw [h] at hsplit
    have h0 : splitOnChar ' ' ("59 0 0 * * *" : String).data
        = [['5', '9'], ['0'], ['0'], ['*'], ['*'], ['*']] := by decide
    rw [h0] at hsplit
    exact h59 draw.1 (List.cons.inj hsplit).1.symm
  · intro h
    rw [h] at hsplit
    have h0 : splitOnChar ' ' ("0 59 0 * * *" : String).data
        = [['0'], ['5', '9'], ['0'], ['*'], ['*'], ['*']] := by decide
    rw [h0] at hsplit
    exact h59 draw.2.1 (List.cons.inj (List.cons.inj hsplit).2).1.symm
  · intro h
    rw [h] at hsplit
    have h0 : splitOnChar ' ' ("0 0 23 * * *" : String).data
        = [['0'], ['0'], ['2', '3'], ['*'], ['*'], ['*']] := by decide
    rw [h0] at hsplit
    exact h23 draw.2.2 (List.cons.inj (List.cons.inj (List.cons.inj hsplit).2).2).1.symm
  · rw [hsplit]
    intro h
    have h1 := (List.cons.inj h).1
    exact h59 draw.1 (congrArg String.data h1)

/-- C13, as stated, fails: the classifier is asked about the key an instance
is listed under, and the descriptor carries the instance's own label.  With
an instance labelled `unsupported-type` listed under the key `mysql`, the
list-all query returns a descriptor whose label is not recognized. -/
theorem GetServices_returns_unrecognized_label :
    exampleIsValid "unsupported-type" = false ∧
    (GetServices (parseServices exampleIsValid mislabelledCatalog exampleFile exampleDraws)
      "" "").map (fun e => (e.Name, e.Label)) = [("db1", "unsupported-type")] ∧
    (GetService (parseServices exampleIsValid mislabelledCatalog exampleFile exampleDraws)
      "unsupported-type" "db1").Label = "unsupported-type" := by
  decide

/-- C13, amended: for every classifier, catalog, configuration and sequence
of draws, every entry of every result of `GetServices` (the list-all call
included) and every non-zero result of `GetService` describes an instance that
the catalog lists under a key for which `IsValidServiceType` holds, and carries
that instance's name and label; and when every instance is listed under its own
label, every returned label is recognized, and no returned entry carries the
label of an instance whose label is not recognized. -/
theorem registry_results_recognized (IsValidServiceType : String → Bool) (catalog : Catalog)
    (config : Config) (draws : Nat → Draw) (serviceType serviceName : String) :
    (∀ e ∈ GetServices (parseServices IsValidServiceType catalog config draws)
        serviceType serviceName,
      ∃ entry ∈ catalog.entries, IsValidServiceType entry.1 = true ∧
        ∃ svc ∈ entry.2, e.Name = svc.Name ∧ e.Label = svc.Label) ∧
    (GetService (parseServices IsValidServiceType catalog config draws) serviceType serviceName
        ≠ CFService.zero →
      ∃ entry ∈ catalog.entries, IsValidServiceType entry.1 = true ∧
        ∃ svc ∈ entry.2,
          (GetService (parseServices IsValidServiceType catalog config draws)
            serviceType serviceName).Name = svc.Name ∧
          (GetService (parseServices IsValidServiceType catalog config draws)
            serviceType serviceName).Label = svc.Label) ∧
    ((∀ entry ∈ catalog.entries, ∀ svc ∈ entry.2, svc.Label = entry.1) →
      (∀ e ∈ GetServices (parseServices IsValidServiceType catalog config draws)
          serviceType serviceName, IsValidServiceType e.Label = true) ∧
      (GetService (parseServices IsValidServiceType catalog config draws) serviceType serviceName
          ≠ CFService.zero →
        IsValidServiceType (GetService (parseServices IsValidServiceType catalog config draws)
          serviceType serviceName).Label = true) ∧
      (∀ entry ∈ catalog.entries, ∀ svc ∈ entry.2, IsValidServiceType svc.Label = false →
        (∀ e ∈ GetServices (parseServices IsValidServiceType catalog config draws)
          serviceType serviceName, e.Label ≠ svc.Label) ∧
        (GetService (parseServices IsValidServiceType catalog config draws)
            serviceType serviceName ≠ CFService.zero →
          (GetService (parseServices IsValidServiceType catalog config draws)
            serviceType serviceName).Label ≠ svc.Label))) := by
  have hall : ∀ e ∈ parseServices IsValidServiceType catalog config draws,
      ∃ entry ∈ catalog.entries, IsValidServiceType entry.1 = true ∧
        ∃ svc ∈ entry.2, e.Name = svc.Name ∧ e.Label = svc.Label := by
    intro e he
    obtain ⟨entry, hentry, hvalid, svc, hsvc, g, hg⟩ :=
      parseServices_sound IsValidServiceType catalog config draws e he
    have hname : e.Name = svc.Name := by rw [hg]; rfl
    have hlabel : e.Label = svc.Label := by rw [hg]; rfl
    exact ⟨entry, hentry, hvalid, svc, hsvc, hname, hlabel⟩
  have hget : GetService (parseServices IsValidServiceType catalog config draws)
        serviceType serviceName ≠ CFService.zero →
      GetService (parseServices IsValidServiceType catalog config draws)
        serviceType serviceName ∈ parseServices IsValidServiceType catalog config draws := by
    intro hne
    rcases GetService_mem_or_zero (parseServices IsValidServiceType catalog config draws)
      serviceType serviceName with h | h
    · exact absurd h hne
    · exact h
  refine ⟨fun e he => hall e (GetServices_subset _ _ _ e he), fun hne => hall _ (hget hne), ?_⟩
  intro hkeys
  have hrec : ∀ e ∈ parseServices IsValidServiceType catalog config draws,
      IsValidServiceType e.Label = true := by
    intro e he
    obtain ⟨entry, hentry, hvalid, svc, hsvc, _, hlabel⟩ := hall e he
    rw [hlabel, hkeys entry hentry svc hsvc]
    exact hvalid
  refine ⟨fun e he => hrec e (GetServices_subset _ _ _ e he), fun hne => hrec _ (hget hne), ?_⟩
  intro entry _ svc _ hinvalid
  refine ⟨?_, ?_⟩
  · intro e he hlabel
    have hv := hrec e (GetServices_subset _ _ _ e he)
    rw [hlabel, hinvalid] at hv
    cases hv
  · intro hne hlabel
    have hv := hrec _ (hget hne)
    rw [hlabel, hinvalid] at hv
    cases hv

/-- The amended C13 at concrete inputs.  On the catalog that lists an instance
labelled `unsupported-type` under the key `mysql`, the entry the list-all call
returns describes that instance, listed under a recognized key.  On the
example catalog, which lists each instance under its own label, every label
returned by the list-all call and the label of the non-zero result of
`GetService` for `db1` are recognized; listing all, the `redis` instance is
absent. -/
theorem registry_results_recognized_witness :
    ((GetServices (parseServices exampleIsValid mislabelledCatalog exampleFile exampleDraws)
        "" "").map (fun e => (e.Name, e.Label)) = [("db1", "unsupported-type")] ∧
      ∀ e ∈ GetServices (parseServices exampleIsValid mislabelledCatalog exampleFile exampleDraws)
          "" "",
        ∃ entry ∈ mislabelledCatalog.entries, exampleIsValid entry.1 = true ∧
          ∃ svc ∈ entry.2, e.Name = svc.Name ∧ e.Label = svc.Label) ∧
    (∀ entry ∈ exampleCatalog.entries, ∀ svc ∈ entry.2, svc.Label = entry.1) ∧
    GetService (parseServices exampleIsValid exampleCatalog exampleFile exampleDraws)
      "mysql" "db1" ≠ CFService.zero ∧
    (∀ e ∈ GetServices (parseServices exampleIsValid exampleCatalog exampleFile exampleDraws)
        "" "", exampleIsValid e.Label = true) ∧
    exampleIsValid (GetService
      (parseServices exampleIsValid exampleCatalog exampleFile exampleDraws)
      "mysql" "db1").Label = true ∧
    (GetServices (parseServices exampleIsValid exampleCatalog exampleFile exampleDraws)
      "" "").map (fun e => e.Name) = ["db1", "db2", "pg1"] :=
  have hm := registry_results_recognized exampleIsValid mislabelledCatalog exampleFile
    exampleDraws "" ""
  have h := (registry_results_recognized exampleIsValid exampleCatalog exampleFile exampleDraws
    "" "").2.2 (by decide)
  have hg := ((registry_results_recognized exampleIsValid exampleCatalog exampleFile
    exampleDraws "mysql" "db1").2.2 (by decide)).2.1 (by decide)
  ⟨⟨by decide, hm.1⟩, by decide, by decide, h.1, hg, by decide⟩

/-- C14: for every classifier, catalog, configuration and sequence of draws,
every derived descriptor has as timeout the configured timeout of the service
entry with its name when that is greater than one second, and one hour
otherwise (also when the configuration has no entry for the name, whose
timeout then reads as zero); so every effective timeout is strictly positive.
Every instance listed under a recognized key has such a descriptor. -/
theorem parseServices_timeout (IsValidServiceType : String → Bool) (catalog : Catalog)
    (config : Config) (draws : Nat → Draw) :
    (∀ e ∈ parseServices IsValidServiceType catalog config draws,
      e.Timeout =
        (if (Second : Int) < (config.Services.get e.Name).Timeout.Duration
          then (config.Services.get e.Name).Timeout.Duration else (Hour : Int)) ∧
      0 < e.Timeout) ∧
    (∀ entry ∈ catalog.entries, IsValidServiceType entry.1 = true → ∀ svc ∈ entry.2,
      ∃ e ∈ parseServices IsValidServiceType catalog config draws,
        e.Name = svc.Name ∧ e.Label = svc.Label ∧
        e.Timeout =
          (if (Second : Int) < (config.Services.get svc.Name).Timeout.Duration
            then (config.Services.get svc.Name).Timeout.Duration else (Hour : Int))) ∧
    (∀ name : String, config.Services.lookup name = none →
      (config.Services.get name).Timeout.Duration = 0) := by
  refine ⟨?_, ?_, ?_⟩
  · intro e he
    obtain ⟨entry, _, _, svc, _, g, hg⟩ :=
      parseServices_sound IsValidServiceType catalog config draws e he
    have hf := parseService_fields config draws g svc
    subst hg
    have ht := hf.2.2.2.2.1
    rw [hf.1]
    refine ⟨ht, ?_⟩
    rw [ht]
    have hS : (0 : Int) < (Second : Int) := by decide
    have hH : (0 : Int) < (Hour : Int) := by decide
    split_ifs with h
    · exact lt_trans hS h
    · exact hH
  · intro entry hentry hvalid svc hsvc
    obtain ⟨g, hg⟩ := parseServices_complete IsValidServiceType catalog config draws entry
      hentry hvalid svc hsvc
    have hf := parseService_fields config draws g svc
    exact ⟨_, hg, hf.1, hf.2.1, hf.2.2.2.2.1⟩
  · intro name hnone
    unfold ServiceMap.get
    rw [hnone]
    rfl

/-- C14 at a concrete input: in the example, `db1` has a configured timeout of
two hours and `db2` has no configuration entry. -/
theorem parseServices_timeout_witness :
    (parseServices exampleIsValid exampleCatalog exampleFile exampleDraws).map
      (fun e => (e.Name, e.Timeout)) =
      [("db1", 7200000000000), ("db2", 3600000000000), ("pg1", 3600000000000)] ∧
    (∀ e ∈ parseServices exampleIsValid exampleCatalog exampleFile exampleDraws,
      0 < e.Timeout) :=
  have h := parseServices_timeout exampleIsValid exampleCatalog exampleFile exampleDraws
  ⟨by decide, fun e he => (h.1 e he).2⟩

/-- C15: for every classifier, catalog, configuration and sequence of draws,
every derived descriptor has as retention days the configured days of the
service entry with its name when greater than zero and 31 otherwise, and,
independently, as retention files the configured files when greater than zero
and 100 otherwise (also when the configuration has no entry for the name); so
both retention fields are strictly positive.  Every instance listed under a
recognized key has such a descriptor. -/
theorem parseServices_retention (IsValidServiceType : String → Bool) (catalog : Catalog)
    (config : Config) (draws : Nat → Draw) :
    (∀ e ∈ parseServices IsValidServiceType catalog config draws,
      e.Retention.Days =
        (if 0 < (config.Services.get e.Name).Retention.Days
          then (config.Services.get e.Name).Retention.Days else 31) ∧
      e.Retention.Files =
        (if 0 < (config.Services.get e.Name).Retention.Files
          then (config.Services.get e.Name).Retention.Files else 100) ∧
      0 < e.Retention.Days ∧ 0 < e.Retention.Files) ∧
    (∀ entry ∈ catalog.entries, IsValidServiceType entry.1 = true → ∀ svc ∈ entry.2,
      ∃ e ∈ parseServices IsValidServiceType catalog config draws,
        e.Name = svc.Name ∧ e.Label = svc.Label ∧
        e.Retention.Days =
          (if 0 < (config.Services.get svc.Name).Retention.Days
            then (config.Services.get svc.Name).Retention.Days else 31) ∧
        e.Retention.Files =
          (if 0 < (config.Services.get svc.Name).Retention.Files
            then (config.Services.get svc.Name).Retention.Files else 100)) ∧
    (∀ name : String, config.Services.lookup name = none →
      (config.Services.get name).Retention = ⟨0, 0⟩) := by
  refine ⟨?_, ?_, ?_⟩
  · intro e he
    obtain ⟨entry, _, _, svc, _, g, hg⟩ :=
      parseServices_sound IsValidServiceType catalog config draws e he
    have hf := parseService_fields config draws g svc
    subst hg
    have hd := hf.2.2.2.2.2.2.1
    have hfl := hf.2.2.2.2.2.2.2
    rw [hf.1]
    refine ⟨hd, hfl, ?_, ?_⟩
    · rw [hd]
      split_ifs with h
      · exact h
      · decide
    · rw [hfl]
      split_ifs with h
      · exact h
      · decide
  · intro entry hentry hvalid svc hsvc
    obtain ⟨g, hg⟩ := parseServices_complete IsValidServiceType catalog config draws entry
      hentry hvalid svc hsvc
    have hf := parseService_fields config draws g svc
    exact ⟨_, hg, hf.1, hf.2.1, hf.2.2.2.2.2.2.1, hf.2.2.2.2.2.2.2⟩
  · intro name hnone
    unfold ServiceMap.get
    rw [hnone]
    rfl

/-- C15 at a concrete input: in the example, `db1` has ten configured
retention days and no configured files, `db2` has no configuration entry. -/
theorem parseServices_retention_witness :
    (parseServices exampleIsValid exampleCatalog exampleFile exampleDraws).map
      (fun e => (e.Name, e.Retention.Days, e.Retention.Files)) =
      [("db1", 10, 100), ("db2", 31, 100), ("pg1", 31, 100)] ∧
    (∀ e ∈ parseServices exampleIsValid exampleCatalog exampleFile exampleDraws,
      0 < e.Retention.Days ∧ 0 < e.Retention.Files) :=
  have h := parseServices_retention exampleIsValid exampleCatalog exampleFile exampleDraws
  ⟨by decide, fun e he => (h.1 e he).2.2⟩

/-- C16 (Scenario B): the file sets `services.db1.retention.days = 10` and
nothing else, the override document sets `services.db1.schedule` to
`0 0 3 * * *` and nothing else, and the catalog has an instance named `db1`
under a recognized label; then `Get` gives a configuration and, for every
classifier recognizing the label and every outcome of the draws, the list
derived from it is the single descriptor of `db1` with retention days 10,
retention files 100, schedule `0 0 3 * * *` and timeout one hour, and
`GetService` and `GetServices` return it. -/
theorem scenarioB_descriptor (IsValidServiceType : String → Bool) (label plan : String)
    (tags : List String) (draws : Nat → Draw) (hvalid : IsValidServiceType label = true) :
    ∃ config : Config, Get (some scenarioBFile) scenarioBEnviron = some config ∧
      parseServices IsValidServiceType (scenarioBCatalog label plan tags) config draws =
        [{ Name := "db1", Label := label, Plan := plan, Tags := tags,
           Timeout := 3600000000000, Schedule := "0 0 3 * * *",
           Retention := { Days := 10, Files := 100 } }] ∧
      GetService (parseServices IsValidServiceType (scenarioBCatalog label plan tags)
          config draws) label "db1" =
        { Name := "db1", Label := label, Plan := plan, Tags := tags,
          Timeout := 3600000000000, Schedule := "0 0 3 * * *",
          Retention := { Days := 10, Files := 100 } } ∧
      GetServices (parseServices IsValidServiceType (scenarioBCatalog label plan tags)
          config draws) "" "db1" =
        [{ Name := "db1", Label := label, Plan := plan, Tags := tags,
           Timeout := 3600000000000, Schedule := "0 0 3 * * *",
           Retention := { Days := 10, Files := 100 } }] := by
  have hG : Get (some scenarioBFile) scenarioBEnviron =
      some ((Get (some scenarioBFile) scenarioBEnviron).getD Config.initial) := rfl
  refine ⟨_, hG, ?_⟩
  generalize hc : (Get (some scenarioBFile) scenarioBEnviron).getD Config.initial = config
  have hcfg : config.Services.get "db1" =
      { ServiceConfig.zero with Schedule := "0 0 3 * * *", Retention := ⟨10, 0⟩ } := by
    rw [← hc]
    decide
  have hentries : (scenarioBCatalog label plan tags).entries =
      [⟨label, [{ Name := "db1", Label := label, Plan := plan, Tags := tags }]⟩] := by
    simp [scenarioBCatalog]
  have hparse : parseServices IsValidServiceType (scenarioBCatalog label plan tags)
      config draws =
      [{ Name := "db1", Label := label, Plan := plan, Tags := tags,
         Timeout := 3600000000000, Schedule := "0 0 3 * * *",
         Retention := { Days := 10, Files := 100 } }] := by
    unfold parseServices
    rw [hentries]
    simp only [List.foldl_cons, List.foldl_nil, parseLabel, hvalid, if_true, parseInstances,
      parseService, hcfg, List.nil_append]
    rfl
  rw [hparse]
  refine ⟨rfl, ?_, ?_⟩
  · simp [GetService]
  · simp [GetServices, firstNamed]

/-- C16 at a concrete input: the label `mysql` under the example classifier. -/
theorem scenarioB_descriptor_witness :
    exampleIsValid "mysql" = true ∧
    ∃ config : Config, Get (some scenarioBFile) scenarioBEnviron = some config ∧
      parseServices exampleIsValid (scenarioBCatalog "mysql" "small" []) config exampleDraws =
        [{ Name := "db1", Label := "mysql", Plan := "small", Tags := [],
           Timeout := 3600000000000, Schedule := "0 0 3 * * *",
           Retention := { Days := 10, Files := 100 } }] := by
  obtain ⟨config, hG, hparse, _⟩ :=
    scenarioB_descriptor exampleIsValid "mysql" "small" [] exampleDraws (by decide)
  exact ⟨by decide, config, hG, hparse⟩

/-- C17: for every list of derived services and every non-empty service name,
`GetServices` returns a list of length at most one: the empty list when no
entry has that name, and otherwise the singleton of the first entry of the
list whose name equals the given one. -/
theorem GetServices_by_name (services : List CFService) (serviceType serviceName : String)
    (hname : serviceName ≠ "") :
    (GetServices services serviceType serviceName).length ≤ 1 ∧
    GetServices services serviceType serviceName =
      (services.find? (fun e => decide (e.Name = serviceName))).toList ∧
    ((∀ e ∈ services, e.Name ≠ serviceName) →
      GetServices services serviceType serviceName = []) ∧
    (∀ (before : List CFService) (e : CFService) (after : List CFService),
      services = before ++ e :: after → (∀ b ∈ before, b.Name ≠ serviceName) →
      e.Name = serviceName → GetServices services serviceType serviceName = [e]) := by
  have hlen : serviceName.length > 0 := (string_length_pos_iff serviceName).mpr hname
  have heq : GetServices services serviceType serviceName =
      (services.find? (fun e => decide (e.Name = serviceName))).toList := by
    unfold GetServices
    rw [if_pos hlen, firstNamed_eq_find]
  refine ⟨?_, heq, ?_, ?_⟩
  · rw [heq]
    cases services.find? (fun e => decide (e.Name = serviceName)) <;> simp [Option.toList]
  · intro hnone
    rw [heq]
    have : services.find? (fun e => decide (e.Name = serviceName)) = none := by
      rw [List.find?_eq_none]
      intro e he
      simpa using hnone e he
    rw [this]
    rfl
  · intro before e after hsplit hbefore he
    rw [heq, hsplit]
    have : (before ++ e :: after).find? (fun e => decide (e.Name = serviceName)) = some e := by
      rw [List.find?_append]
      have hb : before.find? (fun e => decide (e.Name = serviceName)) = none := by
        rw [List.find?_eq_none]
        intro b hb
        simpa using hbefore b hb
      rw [hb]
      simp [he]
    rw [this]
    rfl

/-- C17 at a concrete input: the derived list of the example catalog, queried
for `db2` and for a name that is absent. -/
theorem GetServices_by_name_witness :
    ("db2" : String) ≠ "" ∧
    (GetServices (parseServices exampleIsValid exampleCatalog exampleFile exampleDraws)
      "postgres" "db2").map (fun e => (e.Name, e.Label)) = [("db2", "mysql")] ∧
    (GetServices (parseServices exampleIsValid exampleCatalog exampleFile exampleDraws)
      "mysql" "nope").length ≤ 1 :=
  ⟨by decide, by decide,
    (GetServices_by_name (parseServices exampleIsValid exampleCatalog exampleFile exampleDraws)
      "mysql" "nope" (by decide)).1⟩

/-- C18: for every list of services and every pair (label, name), `GetService`
returns the first entry whose name and label both match, and the zero value
when none does; it is a total function.  On a derived list (the result of
`parseServices`) it returns the zero value exactly when no entry matches
both. -/
theorem GetService_first_match (services : List CFService) (serviceType serviceName : String)
    (IsValidServiceType : String → Bool) (catalog : Catalog) (config : Config)
    (draws : Nat → Draw) :
    GetService services serviceType serviceName =
      (services.find? (fun e => decide (e.Name = serviceName ∧ e.Label = serviceType))).getD
        CFService.zero ∧
    CFService.zero.Name = "" ∧ CFService.zero.Label = "" ∧
    (GetService (parseServices IsValidServiceType catalog config draws) serviceType serviceName
        = CFService.zero ↔
      ∀ e ∈ parseServices IsValidServiceType catalog config draws,
        ¬ (e.Name = serviceName ∧ e.Label = serviceType)) := by
  refine ⟨GetService_eq_find services serviceType serviceName, rfl, rfl, ?_⟩
  rw [GetService_eq_find]
  cases hfind : (parseServices IsValidServiceType catalog config draws).find?
      (fun e => decide (e.Name = serviceName ∧ e.Label = serviceType)) with
  | none =>
    rw [List.find?_eq_none] at hfind
    constructor
    · intro _ e he
      simpa using hfind e he
    · intro _
      rfl
  | some e =>
    have hmem := List.mem_of_find?_eq_some hfind
    have hmatch := List.find?_some hfind
    constructor
    · intro hzero
      exfalso
      obtain ⟨entry, _, _, svc, _, g, hg⟩ :=
        parseServices_sound IsValidServiceType catalog config draws e hmem
      have hdays : 0 < e.Retention.Days := by
        rw [hg, (parseService_fields config draws g svc).2.2.2.2.2.2.1]
        split_ifs with h
        · exact h
        · decide
      have he0 : e = CFService.zero := hzero
      rw [he0] at hdays
      exact absurd hdays (by decide)
    · intro hnone
      exfalso
      exact hnone e hmem (by simpa using hmatch)

/-- C20: `GetServices` ignores the service type whenever a name is given.  For
every list of services, every non-empty name and every two type arguments the
results are equal; in the example, asking for type `postgres` and name `db1`
returns the `mysql` instance `db1`, while `GetService` with the same arguments
returns the zero value. -/
theorem GetServices_ignores_type (services : List CFService) (t1 t2 serviceName : String)
    (hname : serviceName ≠ "") :
    GetServices services t1 serviceName = GetServices services t2 serviceName ∧
    (GetServices (parseServices exampleIsValid exampleCatalog exampleFile exampleDraws)
      "postgres" "db1").map (fun e => (e.Name, e.Label)) = [("db1", "mysql")] ∧
    GetService (parseServices exampleIsValid exampleCatalog exampleFile exampleDraws)
      "postgres" "db1" = CFService.zero := by
  have hlen : serviceName.length > 0 := (string_length_pos_iff serviceName).mpr hname
  refine ⟨?_, by decide, by decide⟩
  unfold GetServices
  rw [if_pos hlen, if_pos hlen]

/-- C20 at a concrete input: the name `db1` with the types `mysql` and
`postgres`. -/
theorem GetServices_ignores_type_witness :
    ("db1" : String) ≠ "" ∧
    GetServices (parseServices exampleIsValid exampleCatalog exampleFile exampleDraws)
        "mysql" "db1" =
      GetServices (parseServices exampleIsValid exampleCatalog exampleFile exampleDraws)
        "postgres" "db1" :=
  ⟨by decide,
    (GetServices_ignores_type
      (parseServices exampleIsValid exampleCatalog exampleFile exampleDraws)
      "mysql" "postgres" "db1" (by decide)).1⟩

/-! ## The round trip of `Duration.String` through `ParseDuration` -/

theorem roundNearestEven_mul (m d : Nat) (hd : 0 < d) : roundNearestEven (m * d) d = m := by
  unfold roundNearestEven
  simp only [Nat.mul_mod_left, Nat.mul_zero]
  rw [if_pos hd, Nat.mul_div_cancel _ hd]

theorem scaleRatio_zero (n d : Nat) : scaleRatio n d 0 = (n, d) := by
  simp [scaleRatio]

theorem scaleRatio_one (n d : Nat) : scaleRatio n d 1 = (n, d * 2) := by
  simp [scaleRatio]

theorem Float64.isNat_mk_zero (m : Nat) : Float64.isNat ⟨false, m, 0⟩ m := by
  simp [Float64.isNat, Float64.ratio]

theorem Float64.isNat_mk_negSucc (q k : Nat) :
    Float64.isNat ⟨false, q * 2 ^ (k + 1), -((k + 1 : Nat) : Int)⟩ q := by
  have hneg : ¬ (0 : Int) ≤ -((k + 1 : Nat) : Int) := by omega
  have htn : (- -((k + 1 : Nat) : Int)).toNat = k + 1 := by omega
  simp only [Float64.isNat, Float64.ratio, if_neg hneg, htn]

/-- A quotient that is an integer of at most `2 ^ 53` is represented exactly. -/
theorem Float64.ofRatio_exact (q d : Nat) (hd : 0 < d) (hq : q ≤ 2 ^ 53) :
    Float64.isNat (Float64.ofRatio (q * d) d) q := by
  by_cases h0 : q = 0
  · subst h0
    simp [Float64.ofRatio, Float64.isNat, Float64.ratio]
  · have hqpos : 0 < q := Nat.pos_of_ne_zero h0
    have hnpos : 0 < q * d := Nat.mul_pos hqpos hd
    obtain ⟨hnup, hnlow⟩ := bitLen_bounds (q * d) hnpos
    obtain ⟨hdup, hdlow⟩ := bitLen_bounds d hd
    have hle : bitLen (q * d) ≤ bitLen d + 53 := by
      by_contra hcon
      have h1 : bitLen d + 53 ≤ bitLen (q * d) - 1 := by omega
      have h2 := Nat.pow_le_pow_right (show 0 < 2 by decide) h1
      have h3 : q * d < 2 ^ 53 * 2 ^ bitLen d :=
        lt_of_le_of_lt (Nat.mul_le_mul_right d hq) (Nat.mul_lt_mul_of_pos_left hdup (by positivity))
      rw [← Nat.pow_add, Nat.add_comm] at h3
      omega
    obtain ⟨k, hk⟩ : ∃ k, bitLen (q * d) + k = bitLen d + 53 := ⟨bitLen d + 53 - bitLen (q * d), by omega⟩
    have he0 : ((bitLen (q * d) : Nat) : Int) - ((bitLen d : Nat) : Int) - 53 = -((k : Nat) : Int) := by
      omega
    have hcond : ¬ (q * d = 0 ∨ d = 0) := by omega
    unfold Float64.ofRatio
    rw [if_neg hcond]
    simp only [he0]
    by_cases hlt : (scaleRatio (q * d) d (-((k : Nat) : Int))).1 / (scaleRatio (q * d) d (-((k : Nat) : Int))).2 < 2 ^ 53
    · rw [if_pos hlt]
      cases k with
      | zero =>
        have hz : (-((0 : Nat) : Int)) = 0 := by simp
        rw [hz, scaleRatio_zero, roundNearestEven_mul _ _ hd]
        exact Float64.isNat_mk_zero q
      | succ j =>
        rw [scaleRatio_negSucc]
        have : q * d * 2 ^ (j + 1) = q * 2 ^ (j + 1) * d := by ring
        simp only [this, roundNearestEven_mul _ _ hd]
        exact Float64.isNat_mk_negSucc q j
    · rw [if_neg hlt]
      match k, hlt with
      | 0, hlt =>
        have hz : (-((0 : Nat) : Int)) = 0 := by simp
        rw [hz, scaleRatio_zero] at hlt
        simp only [Nat.mul_div_cancel _ hd] at hlt
        have hq53 : q = 2 ^ 53 := by omega
        have he : (-((0 : Nat) : Int) + 1) = 1 := by simp
        rw [he, scaleRatio_one]
        have hm : q * d = 2 ^ 52 * (d * 2) := by rw [hq53]; ring
        simp only [hm, roundNearestEven_mul _ _ (show 0 < d * 2 by omega)]
        rw [hq53]
        simp [Float64.isNat, Float64.ratio]
      | 1, _ =>
        have he : (-((1 : Nat) : Int) + 1) = 0 := by simp
        rw [he, scaleRatio_zero, roundNearestEven_mul _ _ hd]
        exact Float64.isNat_mk_zero q
      | j + 2, _ =>
        have he : (-((j + 2 : Nat) : Int) + 1) = -((j + 1 : Nat) : Int) := by omega
        rw [he, scaleRatio_negSucc]
        have : q * d * 2 ^ (j + 1) = q * 2 ^ (j + 1) * d := by ring
        simp only [this, roundNearestEven_mul _ _ hd]
        exact Float64.isNat_mk_negSucc q j

theorem Float64.isNat_ofNat (n : Nat) (hn : n ≤ 2 ^ 53) : Float64.isNat (Float64.ofNat n) n := by
  have h := Float64.ofRatio_exact n 1 Nat.one_pos hn
  rw [Nat.mul_one] at h
  exact h

theorem Float64.isNat_mul (a b : Float64) (x y : Nat) (ha : a.isNat x) (hb : b.isNat y)
    (hxy : x * y ≤ 2 ^ 53) : (Float64.mul a b).isNat (x * y) := by
  unfold Float64.mul
  have ha' : a.ratio.1 = x * a.ratio.2 := ha
  have hb' : b.ratio.1 = y * b.ratio.2 := hb
  have h : a.ratio.1 * b.ratio.1 = x * y * (a.ratio.2 * b.ratio.2) := by
    rw [ha', hb']; ring
  rw [h]
  exact Float64.ofRatio_exact _ _ (Nat.mul_pos (Float64.ratio_snd_pos a) (Float64.ratio_snd_pos b)) hxy

theorem Float64.isNat_div (a b : Float64) (x y : Nat) (ha : a.isNat x) (hb : b.isNat y)
    (hy : 0 < y) (hdvd : y ∣ x) (hxy : x / y ≤ 2 ^ 53) : (Float64.div a b).isNat (x / y) := by
  unfold Float64.div
  have ha' : a.ratio.1 = x * a.ratio.2 := ha
  have hb' : b.ratio.1 = y * b.ratio.2 := hb
  obtain ⟨z, rfl⟩ := hdvd
  have hz : y * z / y = z := Nat.mul_div_cancel_left z hy
  rw [hz] at hxy ⊢
  have h : a.ratio.1 * b.ratio.2 = z * (a.ratio.2 * b.ratio.1) := by
    rw [ha', hb']; ring
  rw [h]
  exact Float64.ofRatio_exact _ _
    (Nat.mul_pos (Float64.ratio_snd_pos a) (by rw [hb']; exact Nat.mul_pos hy (Float64.ratio_snd_pos b))) hxy

theorem Float64.toUint64_of_isNat (f : Float64) (x : Nat) (h : f.isNat x) :
    f.toUint64 = x := by
  unfold Float64.toUint64
  have h' : f.ratio.1 = x * f.ratio.2 := h
  rw [h']
  exact Nat.mul_div_cancel _ (Float64.ratio_snd_pos f)

theorem isDigit_digitChar (k : Nat) (hk : k < 10) : isDigit (digitChar k) = true := by
  interval_cases k <;> decide

theorem digitValue_digitChar (k : Nat) (hk : k < 10) : digitValue (digitChar k) = k := by
  interval_cases k <;> decide

theorem digitChar_ne_dot (k : Nat) (hk : k < 10) : digitChar k ≠ '.' := by
  interval_cases k <;> decide

theorem leadingIntAux_digit (x k : Nat) (hk : k < 10) (buf : List Char)
    (hx : x * 10 + k ≤ 2 ^ 63) :
    leadingIntAux x (digitChar k :: buf) = leadingIntAux (x * 10 + k) buf := by
  have h1 : ¬ x > 2 ^ 63 / 10 := by omega
  have h2 : ¬ x * 10 + k > 2 ^ 63 := by omega
  rw [leadingIntAux]
  simp only [isDigit_digitChar k hk, Bool.not_true, Bool.false_eq_true, if_false, if_neg h1,
    digitValue_digitChar k hk, if_neg h2]

theorem leadingIntAux_fmtIntLoop (fuel : Nat) :
    ∀ (v : Nat) (buf : List Char), v ≤ fuel → v ≤ 2 ^ 63 →
      leadingIntAux 0 (fmtIntLoop fuel buf v) = leadingIntAux v buf := by
  induction fuel with
  | zero =>
    intro v buf hv _
    have : v = 0 := by omega
    subst this
    rfl
  | succ fuel ih =>
    intro v buf hv hv63
    unfold fmtIntLoop
    split_ifs with hpos
    · rw [ih (v / 10) _ (by omega) (by omega),
        leadingIntAux_digit (v / 10) (v % 10) (Nat.mod_lt _ (by decide)) buf (by omega)]
      congr 1
      omega
    · have : v = 0 := by omega
      subst this
      rfl

theorem leadingInt_fmtInt (buf : List Char) (v : Nat) (hv : v ≤ 2 ^ 63) :
    leadingInt (fmtInt buf v) = leadingIntAux v buf := by
  unfold leadingInt fmtInt
  split_ifs with h0
  · subst h0
    exact leadingIntAux_digit 0 0 (by decide) buf (by decide)
  · exact leadingIntAux_fmtIntLoop v v buf le_rfl hv

/-- The text `buf` does not begin with a digit. -/
theorem leadingIntAux_stop (x : Nat) (c : Char) (cs : List Char) (hc : isDigit c = false) :
    leadingIntAux x (c :: cs) = some (x, c :: cs) := by
  rw [leadingIntAux]
  simp [hc]

theorem fmtIntLoop_length (fuel : Nat) :
    ∀ (v : Nat) (buf : List Char), buf.length ≤ (fmtIntLoop fuel buf v).length := by
  induction fuel with
  | zero => intro v buf; exact le_rfl
  | succ fuel ih =>
    intro v buf
    unfold fmtIntLoop
    split_ifs
    · exact le_trans (by simp) (ih _ _)
    · exact le_rfl

theorem fmtInt_length (buf : List Char) (v : Nat) : buf.length < (fmtInt buf v).length := by
  unfold fmtInt
  split_ifs with h0
  · simp
  · obtain ⟨f, hf⟩ : ∃ f, v = f + 1 := ⟨v - 1, by omega⟩
    rw [hf]
    unfold fmtIntLoop
    rw [if_pos (by omega)]
    exact lt_of_lt_of_le (by simp) (fmtIntLoop_length _ _ _)

theorem fmtIntLoop_head (fuel : Nat) :
    ∀ (v : Nat) (c : Char) (cs : List Char), isDigit c = true →
      ∃ c2 cs2, fmtIntLoop fuel (c :: cs) v = c2 :: cs2 ∧ isDigit c2 = true := by
  induction fuel with
  | zero => intro v c cs hc; exact ⟨c, cs, rfl, hc⟩
  | succ fuel ih =>
    intro v c cs hc
    unfold fmtIntLoop
    split_ifs
    · exact ih _ _ _ (isDigit_digitChar _ (Nat.mod_lt _ (by decide)))
    · exact ⟨c, cs, rfl, hc⟩

theorem fmtInt_head (buf : List Char) (v : Nat) :
    ∃ c cs, fmtInt buf v = c :: cs ∧ isDigit c = true := by
  unfold fmtInt
  split_ifs with h0
  · exact ⟨'0', buf, rfl, by decide⟩
  · obtain ⟨f, hf⟩ : ∃ f, v = f + 1 := ⟨v - 1, by omega⟩
    rw [hf]
    unfold fmtIntLoop
    rw [if_pos (by omega)]
    exact fmtIntLoop_head _ _ _ _ (isDigit_digitChar _ (Nat.mod_lt _ (by decide)))

theorem mod_pow_succ_low (v i : Nat) :
    v % 10 ^ (i + 1) = v % 10 + 10 * (v / 10 % 10 ^ i) := by
  rw [pow_succ', Nat.mod_mul]

theorem fmtFracLoop_snd (i : Nat) :
    ∀ (buf : List Char) (v : Nat) (print : Bool),
      (fmtFracLoop i buf v print).2.1 = v / 10 ^ i ∧
      (fmtFracLoop i buf v print).2.2 = (print || decide (v % 10 ^ i ≠ 0)) := by
  induction i with
  | zero =>
    intro buf v print
    simp [fmtFracLoop, Nat.mod_one]
  | succ i ih =>
    intro buf v print
    unfold fmtFracLoop
    obtain ⟨h1, h2⟩ := ih (if (print || v % 10 != 0) = true then digitChar (v % 10) :: buf else buf)
      (v / 10) (print || v % 10 != 0)
    refine ⟨?_, ?_⟩
    · rw [h1, Nat.div_div_eq_div_mul, Nat.pow_succ, Nat.mul_comm]
    · rw [h2, mod_pow_succ_low]
      cases print
      · by_cases ha : v % 10 = 0
        · by_cases hb : v / 10 % 10 ^ i = 0
          · simp [ha, hb]
          · simp [ha, hb]
        · have : ¬ (v % 10 + 10 * (v / 10 % 10 ^ i) = 0) := by omega
          simp [ha, this]
      · simp

theorem fracDigits_bounds (i : Nat) :
    ∀ (v : Nat) (print : Bool),
      (fracDigits i v print).2 ≤ i ∧ (fracDigits i v print).1 < 10 ^ (fracDigits i v print).2 := by
  induction i with
  | zero => intro v print; simp [fracDigits]
  | succ i ih =>
    intro v print
    unfold fracDigits
    obtain ⟨h1, h2⟩ := ih (v / 10) (print || v % 10 != 0)
    simp only
    split_ifs
    · refine ⟨by simpa using h1, ?_⟩
      simp only
      rw [Nat.pow_succ]
      have := Nat.mod_lt v (show 10 > 0 by decide)
      omega
    · exact ⟨by omega, h2⟩

theorem fracDigits_true (i : Nat) :
    ∀ v : Nat, fracDigits i v true = (v % 10 ^ i, i) := by
  induction i with
  | zero => intro v; simp [fracDigits, Nat.mod_one]
  | succ i ih =>
    intro v
    unfold fracDigits
    simp only [Bool.true_or, if_true, ih]
    rw [mod_pow_succ_low]
    congr 1
    omega

theorem fracDigits_false (i : Nat) :
    ∀ v : Nat, (fracDigits i v false).1 * 10 ^ (i - (fracDigits i v false).2) = v % 10 ^ i := by
  induction i with
  | zero => intro v; simp [fracDigits, Nat.mod_one]
  | succ i ih =>
    intro v
    unfold fracDigits
    by_cases ha : v % 10 = 0
    · have hp : (false || v % 10 != 0) = false := by simp [ha]
      simp only [hp, Bool.false_eq_true, if_false]
      have hle := (fracDigits_bounds i (v / 10) false).1
      have hsub : i + 1 - (fracDigits i (v / 10) false).2
          = (i - (fracDigits i (v / 10) false).2) + 1 := by omega
      rw [hsub, Nat.pow_succ, ← Nat.mul_assoc, ih, mod_pow_succ_low, ha]
      omega
    · have hp : (false || v % 10 != 0) = true := by simp [ha]
      simp only [hp, if_true, fracDigits_true]
      rw [Nat.sub_self, Nat.pow_zero, Nat.mul_one, mod_pow_succ_low]
      omega

theorem leadingFractionAux_digit (x k : Nat) (hk : k < 10) (scale : Float64)
    (buf : List Char) (hx : x * 10 + k < 2 ^ 63) :
    leadingFractionAux x scale false (digitChar k :: buf) =
      leadingFractionAux (x * 10 + k) (Float64.mul scale (Float64.ofNat 10)) false buf := by
  have h1 : ¬ x > (2 ^ 63 - 1) / 10 := by omega
  have h2 : ¬ x * 10 + k > 2 ^ 63 := by omega
  rw [leadingFractionAux]
  simp only [isDigit_digitChar k hk, Bool.not_true, Bool.false_eq_true, if_false, if_neg h1,
    digitValue_digitChar k hk, if_neg h2]

theorem leadingFractionAux_stop (x : Nat) (scale : Float64) (c : Char) (cs : List Char)
    (hc : isDigit c = false) :
    leadingFractionAux x scale false (c :: cs) = (x, scale, c :: cs) := by
  rw [leadingFractionAux]
  simp [hc]

/-- The digits `fmtFracLoop` writes, and what `leadingFraction` reads in them. -/
theorem fmtFracLoop_spec (i : Nat) (hi : i ≤ 9) :
    ∀ (v : Nat) (print : Bool), ∃ ds : List Char,
      ds.length = (fracDigits i v print).2 ∧
      (∀ buf, (fmtFracLoop i buf v print).1 = ds ++ buf) ∧
      (∀ tail, leadingFractionAux 0 (scaleAfter 0) false (ds ++ tail) =
        leadingFractionAux (fracDigits i v print).1 (scaleAfter (fracDigits i v print).2)
          false tail) := by
  induction i with
  | zero =>
    intro v print
    exact ⟨[], rfl, fun _ => rfl, fun _ => rfl⟩
  | succ i ih =>
    intro v print
    generalize hflag : (print || v % 10 != 0) = flag
    obtain ⟨ds, hlen, htext, hparse⟩ := ih (by omega) (v / 10) flag
    obtain ⟨hj, hX⟩ := fracDigits_bounds i (v / 10) flag
    have hfd : fracDigits (i + 1) v print =
        if flag = true then
          ((fracDigits i (v / 10) flag).1 * 10 + v % 10, (fracDigits i (v / 10) flag).2 + 1)
        else fracDigits i (v / 10) flag := by
      rw [fracDigits]
      simp only [hflag]
    have hfl : ∀ buf, fmtFracLoop (i + 1) buf v print =
        fmtFracLoop i (if flag = true then digitChar (v % 10) :: buf else buf) (v / 10) flag := by
      intro buf
      rw [fmtFracLoop]
      simp only [hflag]
    cases flag with
    | true =>
      simp only [if_true] at hfd hfl
      refine ⟨ds ++ [digitChar (v % 10)], ?_, ?_, ?_⟩
      · rw [hfd]
        simp only [List.length_append, List.length_singleton, hlen]
      · intro buf
        rw [hfl, htext, List.append_assoc]
        rfl
      · intro tail
        have hpow : 10 ^ (fracDigits i (v / 10) true).2 ≤ 10 ^ 9 :=
          Nat.pow_le_pow_right (by decide) (by omega)
        have hmod := Nat.mod_lt v (show 10 > 0 by decide)
        have h9 : (10 : Nat) ^ 9 = 1000000000 := by norm_num
        have h63 : (2 : Nat) ^ 63 = 9223372036854775808 := by norm_num
        rw [hfd, List.append_assoc, hparse]
        exact leadingFractionAux_digit (fracDigits i (v / 10) true).1 (v % 10) hmod _ _
          (by rw [h63]; omega)
    | false =>
      simp only [Bool.false_eq_true, if_false] at hfd hfl
      refine ⟨ds, ?_, ?_, ?_⟩
      · rw [hfd, hlen]
      · intro buf
        rw [hfl]
        exact htext buf
      · intro tail
        rw [hfd]
        exact hparse tail


set_option maxHeartbeats 4000000 in
theorem parseDurationLoop_step_int (fuel d v unit : Nat) (buf : List Char) (c1 : Char)
    (cs1 u s4 : List Char)
    (hbuf : buf = c1 :: cs1) (hc1d : isDigit c1 = false) (hc1dot : c1 ≠ '.')
    (htake : buf.takeWhile (fun c => !endsUnit c) = u)
    (hdrop : buf.dropWhile (fun c => !endsUnit c) = s4)
    (hmap : unitMap (String.mk u) = some unit) (hu : u.length ≠ 0)
    (hv63 : v ≤ 2 ^ 63) (hv : v ≤ 2 ^ 63 / unit) (hsum : d + v * unit ≤ 2 ^ 63) :
    parseDurationLoop (fuel + 1) d (fmtInt buf v) = parseDurationLoop fuel (d + v * unit) s4 := by
  obtain ⟨c, cs, hs, hcd⟩ := fmtInt_head buf v
  have hint : leadingInt (c :: cs) = some (v, buf) := by
    rw [← hs, leadingInt_fmtInt buf v hv63, hbuf]
    exact leadingIntAux_stop v c1 cs1 hc1d
  have hlen : (c :: cs).length ≠ buf.length := by
    rw [← hs]
    exact Nat.ne_of_gt (fmtInt_length buf v)
  rw [hs]
  rw [parseDurationLoop]
  rw [if_neg (by simp [hcd]), hint]
  have hpre : ((c :: cs).length != buf.length) = true := by simpa using hlen
  subst hbuf
  have hvu : ¬ v > 2 ^ 63 / unit := by omega
  have hd64 : (d + v * unit) % 2 ^ 64 = d + v * unit := Nat.mod_eq_of_lt (by omega)
  have hd63 : ¬ (d + v * unit > 2 ^ 63) := by omega
  simp only [hc1dot, List.cons.injEq, false_and, imp_self, implies_true, hpre, htake, hdrop, hu,
    hmap, hvu, hd64, hd63, Bool.not_true, Bool.false_and, Bool.false_eq_true, if_false,
    Nat.lt_irrefl, gt_iff_lt, decide_False]


theorem isNat_scaleAfter (j : Nat) (hj : j ≤ 15) : (scaleAfter j).isNat (10 ^ j) := by
  induction j with
  | zero => exact Float64.isNat_ofNat 1 (by norm_num)
  | succ j ih =>
    have h15 : 10 ^ (j + 1) ≤ 10 ^ 15 := Nat.pow_le_pow_right (by decide) hj
    rw [scaleAfter, Nat.pow_succ]
    exact Float64.isNat_mul _ _ _ _ (ih (by omega)) (Float64.isNat_ofNat 10 (by norm_num))
      (by rw [← Nat.pow_succ]; exact le_trans h15 (by norm_num))

/-- The scaled fraction `float64(f) * (float64(unit) / scale)` of a component
printed with `i` digits of precision is the fraction itself. -/
theorem fraction_value (i w : Nat) (hi : i ≤ 9) :
    Float64.toUint64 (Float64.mul (Float64.ofNat (fracDigits i w false).1)
      (Float64.div (Float64.ofNat (10 ^ i)) (scaleAfter (fracDigits i w false).2)))
      = w % 10 ^ i := by
  obtain ⟨hj, hX⟩ := fracDigits_bounds i w false
  have hval := fracDigits_false i w
  have hpi : 10 ^ i ≤ 10 ^ 9 := Nat.pow_le_pow_right (by decide) hi
  have h9 : (10 : Nat) ^ 9 ≤ 2 ^ 53 := by norm_num
  have hpj : 10 ^ (fracDigits i w false).2 ≤ 10 ^ i := Nat.pow_le_pow_right (by decide) hj
  have hdiv : 10 ^ i / 10 ^ (fracDigits i w false).2 = 10 ^ (i - (fracDigits i w false).2) :=
    Nat.pow_div hj (by decide)
  have hquot : 10 ^ (i - (fracDigits i w false).2) ≤ 10 ^ i :=
    Nat.pow_le_pow_right (by decide) (Nat.sub_le _ _)
  have hd : (Float64.div (Float64.ofNat (10 ^ i)) (scaleAfter (fracDigits i w false).2)).isNat
      (10 ^ (i - (fracDigits i w false).2)) := by
    rw [← hdiv]
    exact Float64.isNat_div _ _ _ _ (Float64.isNat_ofNat _ (by omega))
      (isNat_scaleAfter _ (by omega)) (by positivity) (pow_dvd_pow 10 hj)
      (by rw [hdiv]; omega)
  have hm := Float64.isNat_mul _ _ _ _
    (Float64.isNat_ofNat (fracDigits i w false).1 (by omega)) hd
    (by rw [hval]; exact le_trans (le_of_lt (Nat.mod_lt _ (by positivity))) (by omega))
  rw [Float64.toUint64_of_isNat _ _ hm, hval]

set_option maxHeartbeats 4000000 in
theorem parseDurationLoop_step_frac (fuel d v i w : Nat) (buf : List Char) (c1 : Char)
    (cs1 u s4 : List Char) (hi : i ≤ 9) (hfrac : w % 10 ^ i ≠ 0)
    (hbuf : buf = c1 :: cs1) (hc1d : isDigit c1 = false)
    (htake : buf.takeWhile (fun c => !endsUnit c) = u)
    (hdrop : buf.dropWhile (fun c => !endsUnit c) = s4)
    (hmap : unitMap (String.mk u) = some (10 ^ i)) (hu : u.length ≠ 0)
    (hv63 : v ≤ 2 ^ 63) (hv : v ≤ 2 ^ 63 / 10 ^ i)
    (hsum : d + v * 10 ^ i + w % 10 ^ i ≤ 2 ^ 63) :
    parseDurationLoop (fuel + 1) d (fmtInt ('.' :: (fmtFracLoop i buf w false).1) v) =
      parseDurationLoop fuel (d + v * 10 ^ i + w % 10 ^ i) s4 := by
  obtain ⟨ds, hdslen, htext, hparse⟩ := fmtFracLoop_spec i hi w false
  obtain ⟨hj, hX⟩ := fracDigits_bounds i w false
  have hval := fracDigits_false i w
  have hfloat := fraction_value i w hi
  have hXpos : 0 < (fracDigits i w false).1 := by
    rcases Nat.eq_zero_or_pos (fracDigits i w false).1 with h | h
    · rw [h, Nat.zero_mul] at hval
      exact absurd hval.symm hfrac
    · exact h
  have hjpos : 1 ≤ (fracDigits i w false).2 := by
    rcases Nat.eq_zero_or_pos (fracDigits i w false).2 with h | h
    · rw [h] at hX
      simp at hX
      omega
    · exact h
  generalize (fracDigits i w false).1 = X at hparse hX hval hfloat hXpos
  generalize (fracDigits i w false).2 = j at hparse hX hval hfloat hdslen hj hjpos
  rw [htext buf]
  obtain ⟨c, cs, hs, hcd⟩ := fmtInt_head ('.' :: (ds ++ buf)) v
  have hint : leadingInt (c :: cs) = some (v, '.' :: (ds ++ buf)) := by
    rw [← hs, leadingInt_fmtInt _ v hv63]
    exact leadingIntAux_stop v '.' _ (by decide)
  have hlen : (c :: cs).length ≠ ('.' :: (ds ++ buf)).length := by
    rw [← hs]
    exact Nat.ne_of_gt (fmtInt_length _ v)
  have hLF : leadingFraction (ds ++ buf) = (X, scaleAfter j, buf) := by
    unfold leadingFraction
    have h0 : Float64.ofNat 1 = scaleAfter 0 := rfl
    rw [h0, hparse buf, hbuf]
    exact leadingFractionAux_stop X _ c1 cs1 hc1d
  have hpost : ((ds ++ buf).length != buf.length) = true := by
    simp only [List.length_append, hdslen, bne_iff_ne, ne_eq]
    omega
  rw [hs, parseDurationLoop]
  rw [if_neg (by simp [hcd]), hint]
  have hpre : ((c :: cs).length != ('.' :: (ds ++ buf)).length) = true := by simpa using hlen
  have hvu : ¬ v > 2 ^ 63 / 10 ^ i := by omega
  have hpos' : X > 0 := hXpos
  have hv64 : (v * 10 ^ i + w % 10 ^ i) % 2 ^ 64 = v * 10 ^ i + w % 10 ^ i :=
    Nat.mod_eq_of_lt (by omega)
  have hv63' : ¬ (v * 10 ^ i + w % 10 ^ i > 2 ^ 63) := by omega
  have hd64 : (d + (v * 10 ^ i + w % 10 ^ i)) % 2 ^ 64 = d + v * 10 ^ i + w % 10 ^ i := by
    rw [← Nat.add_assoc]
    exact Nat.mod_eq_of_lt (by omega)
  have hd63 : ¬ (d + v * 10 ^ i + w % 10 ^ i > 2 ^ 63) := by omega
  simp only [hLF, hpre, hpost, htake, hdrop, hu, hmap, hvu, hfloat, hpos', hv64, hv63', hd64,
    hd63, Bool.not_true, Bool.false_and, Bool.and_false, Bool.false_eq_true, if_false, if_true,
    decide_True, decide_False, Bool.true_and, Bool.and_true]

theorem fracDigits_zero (i : Nat) :
    ∀ v : Nat, v % 10 ^ i = 0 → fracDigits i v false = (0, 0) := by
  induction i with
  | zero => intro v _; rfl
  | succ i ih =>
    intro v hv
    rw [mod_pow_succ_low] at hv
    have ha : v % 10 = 0 := by omega
    have hb : v / 10 % 10 ^ i = 0 := by omega
    have hp : (false || v % 10 != 0) = false := by simp [ha]
    rw [fracDigits]
    simp only [hp, Bool.false_eq_true, if_false]
    exact ih _ hb

/-- What `fmtFrac` returns: the text with the fraction in front, if there is
one, and the integer part. -/
theorem fmtFrac_eq (buf : List Char) (v i : Nat) (hi : i ≤ 9) :
    fmtFrac buf v i =
      (if v % 10 ^ i ≠ 0 then '.' :: (fmtFracLoop i buf v false).1 else buf, v / 10 ^ i) := by
  obtain ⟨h1, h2⟩ := fmtFracLoop_snd i buf v false
  unfold fmtFrac
  simp only [h1, h2, Bool.false_or, decide_eq_true_eq]
  by_cases h : v % 10 ^ i = 0
  · obtain ⟨ds, hlen, htext, _⟩ := fmtFracLoop_spec i hi v false
    rw [fracDigits_zero i v h] at hlen
    have hds : ds = [] := List.length_eq_zero.mp hlen
    rw [if_neg (not_not.mpr h), if_neg (not_not.mpr h), htext buf, hds]
    rfl
  · rw [if_pos h, if_pos h]

/-- One component of a duration text, written by `fmtFrac` and `fmtInt` with
`i` digits of precision in front of its unit `10 ^ i`, is read back by one pass
of the parser loop as its value. -/
theorem parseDurationLoop_component (fuel d v i w : Nat) (buf : List Char) (c1 : Char)
    (cs1 u s4 : List Char) (hi : i ≤ 9)
    (hbuf : buf = c1 :: cs1) (hc1d : isDigit c1 = false) (hc1dot : c1 ≠ '.')
    (htake : buf.takeWhile (fun c => !endsUnit c) = u)
    (hdrop : buf.dropWhile (fun c => !endsUnit c) = s4)
    (hmap : unitMap (String.mk u) = some (10 ^ i)) (hu : u.length ≠ 0)
    (hv63 : v ≤ 2 ^ 63) (hv : v ≤ 2 ^ 63 / 10 ^ i)
    (hsum : d + v * 10 ^ i + w % 10 ^ i ≤ 2 ^ 63) :
    parseDurationLoop (fuel + 1) d (fmtInt (fmtFrac buf w i).1 v) =
      parseDurationLoop fuel (d + v * 10 ^ i + w % 10 ^ i) s4 := by
  rw [fmtFrac_eq buf w i hi]
  by_cases h : w % 10 ^ i = 0
  · simp only [h, ne_eq, not_true_eq_false, if_false, Nat.add_zero]
    rw [h, Nat.add_zero] at hsum
    exact parseDurationLoop_step_int fuel d v (10 ^ i) buf c1 cs1 u s4 hbuf hc1d hc1dot htake
      hdrop hmap hu hv63 hv hsum
  · simp only [h, ne_eq, not_false_eq_true, if_true]
    exact parseDurationLoop_step_frac fuel d v i w buf c1 cs1 u s4 hi h hbuf hc1d htake hdrop
      hmap hu hv63 hv hsum

theorem unit_scan (a : Char) (rest : List Char) (ha : endsUnit a = false)
    (hrest : rest = [] ∨ ∃ c cs, rest = c :: cs ∧ isDigit c = true) :
    (a :: rest).takeWhile (fun c => !endsUnit c) = [a] ∧
    (a :: rest).dropWhile (fun c => !endsUnit c) = rest := by
  rcases hrest with h | ⟨c, cs, h, hc⟩
  · subst h
    simp [List.takeWhile, List.dropWhile, ha]
  · subst h
    have hce : endsUnit c = true := by simp [endsUnit, hc]
    simp [List.takeWhile, List.dropWhile, ha, hce]

theorem parseDurationLoop_nil (fuel d : Nat) : parseDurationLoop fuel d [] = .ok d := by
  cases fuel <;> rfl

/-- A text made of one component with a fraction of `i` digits and nothing
after its unit is parsed to its value. -/
theorem parseDurationLoop_single (fuel d v i w : Nat) (buf : List Char) (c1 : Char)
    (cs1 : List Char) (hi : i ≤ 9)
    (hbuf : buf = c1 :: cs1) (hc1d : isDigit c1 = false) (hc1dot : c1 ≠ '.')
    (htake : buf.takeWhile (fun c => !endsUnit c) = buf)
    (hdrop : buf.dropWhile (fun c => !endsUnit c) = [])
    (hmap : unitMap (String.mk buf) = some (10 ^ i))
    (hv63 : v ≤ 2 ^ 63) (hv : v ≤ 2 ^ 63 / 10 ^ i)
    (hsum : d + v * 10 ^ i + w % 10 ^ i ≤ 2 ^ 63)
    (hfuel : (fmtInt (fmtFrac buf w i).1 v).length ≤ fuel) :
    parseDurationLoop fuel d (fmtInt (fmtFrac buf w i).1 v) =
      .ok (d + v * 10 ^ i + w % 10 ^ i) := by
  have hlen := fmtInt_length (fmtFrac buf w i).1 v
  obtain ⟨f, rfl⟩ : ∃ f, fuel = f + 1 := ⟨fuel - 1, by omega⟩
  have hu : buf.length ≠ 0 := by rw [hbuf]; simp
  rw [parseDurationLoop_component f d v i w buf c1 cs1 buf [] hi hbuf hc1d hc1dot htake hdrop
    hmap hu hv63 hv hsum, parseDurationLoop_nil]

theorem formatMagnitude_seconds_parse (u : Nat) (hsec : ¬ u < Second) (hu : u ≤ 2 ^ 63)
    (fuel : Nat) (hfuel : (formatMagnitude u).length ≤ fuel) :
    parseDurationLoop fuel 0 (formatMagnitude u) = .ok u := by
  have hS : Second = 1000000000 := by decide
  have h9 : (10 : Nat) ^ 9 = 1000000000 := by norm_num
  have h63 : (2 : Nat) ^ 63 = 9223372036854775808 := by norm_num
  have hr2 : (fmtFrac ['s'] u 9).2 = u / 10 ^ 9 := by rw [fmtFrac_eq _ _ _ (by decide)]
  have hmapS : unitMap (String.mk ['s']) = some (10 ^ 9) := by decide
  have hmapM : unitMap (String.mk ['m']) = some 60000000000 := by decide
  have hmapH : unitMap (String.mk ['h']) = some 3600000000000 := by decide
  -- the seconds component
  have hw1 : ∀ (f d : Nat), d + (u / 10 ^ 9 % 60) * 10 ^ 9 + u % 10 ^ 9 ≤ 2 ^ 63 →
      (fmtInt (fmtFrac ['s'] u 9).1 (u / 10 ^ 9 % 60)).length ≤ f →
      parseDurationLoop f d (fmtInt (fmtFrac ['s'] u 9).1 (u / 10 ^ 9 % 60)) =
        .ok (d + (u / 10 ^ 9 % 60) * 10 ^ 9 + u % 10 ^ 9) := by
    intro f d hsum hf
    exact parseDurationLoop_single f d _ 9 u ['s'] 's' [] (by decide) rfl (by decide)
      (by decide) (by decide) (by decide) hmapS (by rw [h63]; omega)
      (by rw [h63, h9]; omega) hsum hf
  unfold formatMagnitude at hfuel ⊢
  rw [if_neg hsec] at hfuel ⊢
  simp only [hr2] at hfuel ⊢
  obtain ⟨c1, cs1, hw1eq, hc1⟩ := fmtInt_head (fmtFrac ['s'] u 9).1 (u / 10 ^ 9 % 60)
  have hlen1 := fmtInt_length (fmtFrac ['s'] u 9).1 (u / 10 ^ 9 % 60)
  by_cases hmin : u / 10 ^ 9 / 60 > 0
  · rw [if_pos hmin] at hfuel ⊢
    obtain ⟨hmt, hmd⟩ := unit_scan 'm' (fmtInt (fmtFrac ['s'] u 9).1 (u / 10 ^ 9 % 60))
      (by decide) (Or.inr ⟨c1, cs1, hw1eq, hc1⟩)
    have hlen2 := fmtInt_length ('m' :: fmtInt (fmtFrac ['s'] u 9).1 (u / 10 ^ 9 % 60))
      (u / 10 ^ 9 / 60 % 60)
    obtain ⟨c2, cs2, hw2eq, hc2⟩ :=
      fmtInt_head ('m' :: fmtInt (fmtFrac ['s'] u 9).1 (u / 10 ^ 9 % 60)) (u / 10 ^ 9 / 60 % 60)
    by_cases hhour : u / 10 ^ 9 / 60 / 60 > 0
    · rw [if_pos hhour] at hfuel ⊢
      obtain ⟨hht, hhd⟩ := unit_scan 'h'
        (fmtInt ('m' :: fmtInt (fmtFrac ['s'] u 9).1 (u / 10 ^ 9 % 60)) (u / 10 ^ 9 / 60 % 60))
        (by decide) (Or.inr ⟨c2, cs2, hw2eq, hc2⟩)
      have hlen3 := fmtInt_length
        ('h' :: fmtInt ('m' :: fmtInt (fmtFrac ['s'] u 9).1 (u / 10 ^ 9 % 60))
          (u / 10 ^ 9 / 60 % 60)) (u / 10 ^ 9 / 60 / 60)
      simp only [List.length_cons] at hlen2 hlen3
      obtain ⟨f, rfl⟩ : ∃ f, fuel = f + 2 := ⟨fuel - 2, by omega⟩
      rw [parseDurationLoop_step_int (f + 1) 0 (u / 10 ^ 9 / 60 / 60) 3600000000000 _ 'h' _
          ['h'] _ rfl (by decide) (by decide) hht hhd hmapH (by decide)
          (by rw [h63, h9]; omega) (by rw [h63, h9]; omega) (by rw [h63, h9]; omega),
        parseDurationLoop_step_int f _ (u / 10 ^ 9 / 60 % 60) 60000000000 _ 'm' _
          ['m'] _ rfl (by decide) (by decide) hmt hmd hmapM (by decide)
          (by rw [h63, h9]; omega) (by rw [h63, h9]; omega) (by rw [h63, h9]; omega),
        hw1 f _ (by rw [h63, h9]; omega) (by omega)]
      congr 1
      rw [h9]
      omega
    · rw [if_neg hhour] at hfuel ⊢
      simp only [List.length_cons] at hlen2
      obtain ⟨f, rfl⟩ : ∃ f, fuel = f + 1 := ⟨fuel - 1, by omega⟩
      rw [parseDurationLoop_step_int f 0 (u / 10 ^ 9 / 60 % 60) 60000000000 _ 'm' _
          ['m'] _ rfl (by decide) (by decide) hmt hmd hmapM (by decide)
          (by rw [h63, h9]; omega) (by rw [h63, h9]; omega) (by rw [h63, h9]; omega),
        hw1 f _ (by rw [h63, h9]; omega) (by omega)]
      congr 1
      rw [h9] at hhour ⊢
      omega
  · rw [if_neg hmin] at hfuel ⊢
    rw [hw1 fuel 0 (by rw [h63, h9]; omega) hfuel]
    congr 1
    rw [h9] at hmin ⊢
    omega

theorem formatMagnitude_subsecond_parse (u : Nat) (hpos : 0 < u) (hsec : u < Second)
    (fuel : Nat) (hfuel : (formatMagnitude u).length ≤ fuel) :
    parseDurationLoop fuel 0 (formatMagnitude u) = .ok u := by
  have hS : Second = 1000000000 := by decide
  have hMs : Millisecond = 1000000 := by decide
  have hUs : Microsecond = 1000 := by decide
  have h63 : (2 : Nat) ^ 63 = 9223372036854775808 := by norm_num
  have h0 : (10 : Nat) ^ 0 = 1 := by norm_num
  have h3 : (10 : Nat) ^ 3 = 1000 := by norm_num
  have h6 : (10 : Nat) ^ 6 = 1000000 := by norm_num
  have hne : ¬ u = 0 := by omega
  unfold formatMagnitude at hfuel ⊢
  rw [if_pos hsec, if_neg hne] at hfuel ⊢
  by_cases hus : u < Microsecond
  · rw [if_pos hus] at hfuel ⊢
    have hr2 : (fmtFrac ['n', 's'] u 0).2 = u / 10 ^ 0 := by rw [fmtFrac_eq _ _ _ (by decide)]
    rw [hr2] at hfuel ⊢
    rw [parseDurationLoop_single fuel 0 (u / 10 ^ 0) 0 u ['n', 's'] 'n' ['s'] (by decide) rfl
      (by decide) (by decide) (by decide) (by decide) (by decide)
      (by rw [h63, h0]; omega) (by rw [h63, h0]; omega) (by rw [h63, h0]; omega) hfuel]
    congr 1
    rw [h0]
    omega
  · rw [if_neg hus] at hfuel ⊢
    by_cases hms : u < Millisecond
    · rw [if_pos hms] at hfuel ⊢
      have hr2 : (fmtFrac ['µ', 's'] u 3).2 = u / 10 ^ 3 := by rw [fmtFrac_eq _ _ _ (by decide)]
      rw [hr2] at hfuel ⊢
      rw [parseDurationLoop_single fuel 0 (u / 10 ^ 3) 3 u ['µ', 's'] 'µ' ['s'] (by decide) rfl
        (by decide) (by decide) (by decide) (by decide) (by decide)
        (by rw [h63, h3]; omega) (by rw [h63, h3]; omega) (by rw [h63, h3]; omega) hfuel]
      congr 1
      rw [h3]
      omega
    · rw [if_neg hms] at hfuel ⊢
      have hr2 : (fmtFrac ['m', 's'] u 6).2 = u / 10 ^ 6 := by rw [fmtFrac_eq _ _ _ (by decide)]
      rw [hr2] at hfuel ⊢
      rw [parseDurationLoop_single fuel 0 (u / 10 ^ 6) 6 u ['m', 's'] 'm' ['s'] (by decide) rfl
        (by decide) (by decide) (by decide) (by decide) (by decide)
        (by rw [h63, h6]; omega) (by rw [h63, h6]; omega) (by rw [h63, h6]; omega) hfuel]
      congr 1
      rw [h6]
      omega

/-- The text of a positive magnitude of at most `2 ^ 63` is parsed, with fuel
enough for its length, to that magnitude. -/
theorem formatMagnitude_parse (u : Nat) (hpos : 0 < u) (hu : u ≤ 2 ^ 63) :
    parseDurationLoop (formatMagnitude u).length 0 (formatMagnitude u) = .ok u := by
  by_cases hsec : u < Second
  · exact formatMagnitude_subsecond_parse u hpos hsec _ le_rfl
  · exact formatMagnitude_seconds_parse u hsec hu _ le_rfl

/-- The text of a magnitude begins with a digit and has at least two
characters. -/
theorem formatMagnitude_head (u : Nat) :
    ∃ c cs, formatMagnitude u = c :: cs ∧ isDigit c = true ∧ cs ≠ [] := by
  have key : ∀ (buf : List Char) (v : Nat), buf ≠ [] →
      ∃ c cs, fmtInt buf v = c :: cs ∧ isDigit c = true ∧ cs ≠ [] := by
    intro buf v hbuf
    obtain ⟨c, cs, hs, hc⟩ := fmtInt_head buf v
    refine ⟨c, cs, hs, hc, ?_⟩
    intro hcs
    have hlen := fmtInt_length buf v
    rw [hs, hcs] at hlen
    have : 0 < buf.length := List.length_pos.mpr hbuf
    simp only [List.length_cons, List.length_nil] at hlen
    omega
  have hfrac : ∀ (buf : List Char) (v i : Nat), buf ≠ [] → (fmtFrac buf v i).1 ≠ [] := by
    intro buf v i hbuf
    unfold fmtFrac
    simp only
    split_ifs
    · simp
    · intro h
      have hl := congrArg List.length h
      have : ∀ (i : Nat) (buf : List Char) (v : Nat) (p : Bool),
          buf.length ≤ (fmtFracLoop i buf v p).1.length := by
        intro i
        induction i with
        | zero => intro buf v p; exact le_rfl
        | succ i ih =>
          intro buf v p
          rw [fmtFracLoop]
          refine le_trans ?_ (ih _ _ _)
          split_ifs <;> simp
      have h2 := this i buf v false
      have h3 : 0 < buf.length := List.length_pos.mpr hbuf
      simp only [List.length_nil] at hl
      omega
  unfold formatMagnitude
  simp only []
  split_ifs
  · exact ⟨'0', ['s'], rfl, by decide, by simp⟩
  · exact key _ _ (hfrac _ _ _ (by simp))
  · exact key _ _ (hfrac _ _ _ (by simp))
  · exact key _ _ (hfrac _ _ _ (by simp))
  · exact key _ _ (by simp)
  · exact key _ _ (by simp)
  · exact key _ _ (hfrac _ _ _ (by simp))

theorem Duration.format_eq (d : Int) (hlo : -(2 : Int) ^ 63 ≤ d) (hhi : d < (2 : Int) ^ 63) :
    Duration.format d =
      if d < 0 then '-' :: formatMagnitude d.natAbs else formatMagnitude d.natAbs := by
  have h63 : (2 : Int) ^ 63 = 9223372036854775808 := by norm_num
  have h64 : (2 : Int) ^ 64 = 18446744073709551616 := by norm_num
  have h64n : (2 : Nat) ^ 64 = 18446744073709551616 := by norm_num
  have hmag : (if d < 0 then (2 ^ 64 - (d % 2 ^ 64).toNat) % 2 ^ 64
      else (d % 2 ^ 64).toNat) = d.natAbs := by
    rw [h63] at hlo hhi
    by_cases hneg : d < 0
    · simp only [hneg, if_true, h64, h64n]
      omega
    · simp only [hneg, if_false, h64]
      omega
  unfold Duration.format
  simp only [decide_eq_true_eq, hmag]
  rfl

theorem isDigit_ne_sign (c : Char) (hc : isDigit c = true) :
    (c == '-') = false ∧ (c == '+') = false := by
  constructor
  · by_contra h
    have hc' : c = '-' := by simpa using h
    subst hc'
    exact absurd hc (by decide)
  · by_contra h
    have hc' : c = '+' := by simpa using h
    subst hc'
    exact absurd hc (by decide)

theorem ParseDuration_minus (cs : List Char) :
    ParseDuration (String.mk ('-' :: cs)) =
      if cs = ['0'] then .ok 0
      else if cs = [] then .error .invalidDuration
      else
        match parseDurationLoop cs.length 0 cs with
        | .error e => .error e
        | .ok d => .ok (wrapInt64 (-(wrapInt64 (d : Int)))) := rfl

theorem ParseDuration_unsigned (c : Char) (cs : List Char) (hminus : (c == '-') = false)
    (hplus : (c == '+') = false) :
    ParseDuration (String.mk (c :: cs)) =
      if c :: cs = ['0'] then .ok 0
      else if c :: cs = [] then .error .invalidDuration
      else
        match parseDurationLoop (c :: cs).length 0 (c :: cs) with
        | .error e => .error e
        | .ok d =>
          if d > 2 ^ 63 - 1 then .error .invalidDuration else .ok (wrapInt64 (d : Int)) := by
  have h : ParseDuration (String.mk (c :: cs)) =
      if (if (c == '-' || c == '+') = true then cs else c :: cs) = ['0'] then .ok 0
      else if (if (c == '-' || c == '+') = true then cs else c :: cs) = []
        then .error .invalidDuration
      else
        match parseDurationLoop (if (c == '-' || c == '+') = true then cs else c :: cs).length 0
          (if (c == '-' || c == '+') = true then cs else c :: cs) with
        | .error e => .error e
        | .ok d =>
          if (c == '-') = true then .ok (wrapInt64 (-(wrapInt64 (d : Int))))
          else if d > 2 ^ 63 - 1 then .error .invalidDuration else .ok (wrapInt64 (d : Int)) := rfl
  rw [h, hminus, hplus]
  rfl

/-- The function `time.ParseDuration` reads the text `Duration.String` writes
for an `int64` duration back to that duration. -/
theorem ParseDuration_String (d : Int) (hlo : -(2 : Int) ^ 63 ≤ d) (hhi : d < (2 : Int) ^ 63) :
    ParseDuration (Duration.String d) = .ok d := by
  have h63 : (2 : Int) ^ 63 = 9223372036854775808 := by norm_num
  have h64 : (2 : Int) ^ 64 = 18446744073709551616 := by norm_num
  have h63n : (2 : Nat) ^ 63 = 9223372036854775808 := by norm_num
  by_cases h0 : d = 0
  · subst h0
    decide
  · have hupos : 0 < d.natAbs := Int.natAbs_pos.mpr h0
    have hule : d.natAbs ≤ 2 ^ 63 := by rw [h63n]; rw [h63] at hlo hhi; omega
    obtain ⟨c, cs, hW, hc, hcs⟩ := formatMagnitude_head d.natAbs
    obtain ⟨hminus, hplus⟩ := isDigit_ne_sign c hc
    have hparse := formatMagnitude_parse d.natAbs hupos hule
    rw [hW] at hparse
    have hne0 : ¬ (c :: cs = ['0']) := by
      intro h
      exact hcs (List.cons.inj h).2
    unfold Duration.String
    rw [Duration.format_eq d hlo hhi]
    by_cases hneg : d < 0
    · rw [if_pos hneg, hW, ParseDuration_minus, if_neg hne0, if_neg (List.cons_ne_nil _ _),
        hparse]
      show Except.ok (wrapInt64 (-(wrapInt64 (d.natAbs : Int)))) = Except.ok d
      refine congrArg Except.ok ?_
      unfold wrapInt64
      rw [h63, h64]
      rw [h63] at hlo
      omega
    · rw [if_neg hneg, hW, ParseDuration_unsigned c cs hminus hplus, if_neg hne0,
        if_neg (List.cons_ne_nil _ _), hparse]
      have hgt : ¬ d.natAbs > 2 ^ 63 - 1 := by rw [h63n]; rw [h63] at hhi; omega
      show (if d.natAbs > 2 ^ 63 - 1 then Except.error ParseError.invalidDuration
        else Except.ok (wrapInt64 (d.natAbs : Int))) = Except.ok d
      rw [if_neg hgt]
      refine congrArg Except.ok ?_
      unfold wrapInt64
      rw [h63, h64]
      rw [h63] at hhi
      omega

/-- C19: encode-then-decode is the identity on durations.  For every signed
64-bit count of nanoseconds `d` (zero and the negative values included),
decoding with `UnmarshalJSON` the JSON that `MarshalJSON` produces for `d`
succeeds and yields `d`. -/
theorem UnmarshalJSON_MarshalJSON (d : Int) (hlo : -(2 : Int) ^ 63 ≤ d)
    (hhi : d < (2 : Int) ^ 63) :
    TimeoutDuration.UnmarshalJSON (TimeoutDuration.MarshalJSON ⟨d⟩) = .ok ⟨d⟩ := by
  show (match ParseDuration (Duration.String d) with
    | .error err => Except.error (DecodeError.parse err)
    | .ok d => Except.ok (TimeoutDuration.mk d)) = _
  rw [ParseDuration_String d hlo hhi]

set_option maxRecDepth 100000 in
/-- C19 at concrete inputs: minus one and a half milliseconds, whose text has
a fraction, and the least 64-bit duration. -/
theorem UnmarshalJSON_MarshalJSON_witness :
    (-(2 : Int) ^ 63 ≤ -1500000 ∧ (-1500000 : Int) < 2 ^ 63 ∧
      TimeoutDuration.UnmarshalJSON (TimeoutDuration.MarshalJSON ⟨-1500000⟩)
        = .ok ⟨-1500000⟩) ∧
    Duration.String (-1500000) = "-1.5ms" ∧
    Duration.String (-9223372036854775808) = "-2562047h47m16.854775808s" ∧
    TimeoutDuration.UnmarshalJSON (TimeoutDuration.MarshalJSON ⟨-9223372036854775808⟩)
      = .ok ⟨-9223372036854775808⟩ :=
  ⟨⟨by decide, by decide, UnmarshalJSON_MarshalJSON (-1500000) (by decide) (by decide)⟩,
    by decide, by decide,
    UnmarshalJSON_MarshalJSON (-9223372036854775808) (by decide) (by decide)⟩

end Backman
